import Mathlib

/-!
Verification of the nginx configuration parsing engine
(`playbooks/library/nginx_config_parser.py`): a shallow embedding of the
lexer, brace balancer, grammar analyzer, recursive-descent parser with
include resolution, and the combine/readable tree transforms, together
with theorems settling the specification claims.

Conventions of the embedding:
- Python strings are Lean `String`s; token streams are `List` values.
- Generators are modelled as pure functions; a generator that can raise
  mid-stream is modelled as the list of values yielded before the raise
  plus an optional pending exception (`Option PyExc`).
- Unbounded loops/recursions (the parser, the worklist drain, the tree
  transforms) take an explicit fuel argument; the callers instantiate the
  fuel with a provably sufficient value, so exhaustion is unreachable on
  the executions the theorems talk about.
- The file system is a finite association list from path to content;
  `glob` and the `os.path` helpers are modelled from the Python standard
  library behaviour this module relies on.
-/

namespace NginxConfig

/-! ### Python string primitives used by the module -/

/-- Model of CPython ASCII whitespace as used by `str.isspace` on the
configuration texts handled here (the unicode-only space characters do
not occur in the inputs we model). -/
def is_space_char (c : Char) : Bool :=
  c = ' ' ∨ c = '\t' ∨ c = '\n' ∨ c = '\x0d' ∨ c = '\x0b' ∨ c = '\x0c'

/-- Python `s.isspace()`: nonempty and all whitespace. -/
def py_isspace (s : String) : Bool :=
  s ≠ "" ∧ s.data.all is_space_char

/-- Python `s.lstrip()`. -/
def py_lstrip (s : String) : String :=
  ⟨s.data.dropWhile is_space_char⟩

/-- Python `s.rstrip()`. -/
def py_rstrip (s : String) : String :=
  ⟨(s.data.reverse.dropWhile is_space_char).reverse⟩

/-- Python `s.lower()` on the ASCII flag values checked by the analyzer. -/
def py_lower (s : String) : String :=
  ⟨s.data.map Char.toLower⟩

/-- Core of the Python `%` format operator with a single string argument:
`%%` becomes `%` and `%s` becomes the argument (each format string used by
the module contains exactly one `%s` per formatting stage). -/
def py_mod_aux (arg : List Char) : List Char → List Char
  | '%' :: '%' :: rest => '%' :: py_mod_aux arg rest
  | '%' :: 's' :: rest => arg ++ py_mod_aux arg rest
  | c :: rest => c :: py_mod_aux arg rest
  | [] => []

/-- Python `fmt % arg` for a single string argument. -/
def py_mod (fmt arg : String) : String :=
  ⟨py_mod_aux arg.data fmt.data⟩

/-- The string `"\x7b"` (left brace), named to keep brace characters out
of string literals. -/
def lbrace : String := "\x7b"

/-- The string `"\x7d"` (right brace). -/
def rbrace : String := "\x7d"

/-! ### `os.path` and `glob` models -/

/-- `os.path.isabs` on POSIX. -/
def py_isabs (p : String) : Bool := p.startsWith "/"

/-- `posixpath.join` restricted to two components, as called by the
include resolver. -/
def py_join (a b : String) : String :=
  if py_isabs b then b
  else if a = "" ∨ a.endsWith "/" then a ++ b
  else a ++ "/" ++ b

/-- `posixpath.dirname`: everything up to the final slash, with runs of
trailing slashes stripped unless the head is all slashes. -/
def py_dirname (p : String) : String :=
  let cs := p.data
  match (cs.reverse.indexOf '/') with
  | i =>
    if '/' ∈ cs then
      let head := cs.take (cs.length - i)
      if head.all (· = '/') then ⟨head⟩
      else ⟨(head.reverse.dropWhile (· = '/')).reverse⟩
    else ""

/-- `glob.has_magic`: the pattern contains one of the metacharacters. -/
def has_magic (p : String) : Bool :=
  p.data.any (fun c => c = '*' ∨ c = '?' ∨ c = '[')

/-- The modelled file system: an association list from path to file
content (first binding wins, like a finite map). -/
abbrev FS := List (String × String)

/-- Reading a file from the modelled file system. -/
def fs_read (fs : FS) (path : String) : Option String :=
  fs.lookup path

/-- One segment of `fnmatch` as used by `glob`: `*` matches any run,
`?` one character; a `[` class is treated literally (a simplification of
the stdlib matcher that the theorems do not depend on). -/
def seg_match : List Char → List Char → Bool
  | [], [] => true
  | '*' :: ps, [] => seg_match ps []
  | '*' :: ps, c :: s => seg_match ps (c :: s) || seg_match ('*' :: ps) s
  | '?' :: ps, _ :: s => seg_match ps s
  | p :: ps, c :: s => p = c && seg_match ps s
  | _, _ => false
termination_by p s => (s.length, p.length)

/-- `fnmatch` with the hidden-file rule of `glob`: a leading dot must be
matched literally. -/
def glob_seg (pat seg : List Char) : Bool :=
  (match seg, pat with
   | '.' :: _, '.' :: _ => true
   | '.' :: _, _ => false
   | _, _ => true) &&
  seg_match pat seg

/-- Split a path at slashes. -/
def path_segs (p : String) : List (List Char) :=
  (p.data.splitOn '/')

/-- Model of `glob.glob` on the finite file system: the existing paths
whose slash-separated segments all match the pattern. -/
def glob_glob (fs : FS) (pattern : String) : List String :=
  ((fs.map Prod.fst).dedup).filter (fun path =>
    let ps := path_segs pattern
    let ss := path_segs path
    ps.length = ss.length ∧ (ps.zip ss).all (fun z => glob_seg z.1 z.2))

/-- `list.sort()` on strings (lexicographic code-point order). -/
def str_sort (l : List String) : List String :=
  l.mergeSort (fun a b => a ≤ b)

/-! ### Exceptions -/

/-- The flavours of `NgxParserBaseException` raised by the module. -/
inductive NgxKind where
  | syn        -- NgxParserSyntaxError
  | dirArgs    -- NgxParserDirectiveArgumentsError
  | dirCtx     -- NgxParserDirectiveContextError
  | dirUnknown -- NgxParserDirectiveUnknownError
deriving DecidableEq, Repr

/-- The Python exceptions observable through `parse`'s error handling. -/
inductive PyExc where
  | ngx (kind : NgxKind) (strerror : String) (filename : String) (lineno : Nat)
  | ioError (msg : String) (lineno : Option Nat)
  | indexError
  | stopIteration
  | recursionError
  | fuelErr
deriving DecidableEq, Repr

/-- Python `str(e)` for the exceptions above (`NgxParserBaseException`
formats `"%s in %s:%s"`; `StopIteration` prints empty). `fuelErr` is the
unreachable fuel sentinel of the embedding. -/
def exc_str : PyExc → String
  | .ngx _ strerror filename lineno => strerror ++ " in " ++ filename ++ ":" ++ toString lineno
  | .ioError msg _ => msg
  | .indexError => "list index out of range"
  | .stopIteration => ""
  | .recursionError => "maximum recursion depth exceeded"
  | .fuelErr => "fuel exhausted"

/-- Python `getattr(e, "lineno", None)`. -/
def exc_lineno : PyExc → Option Nat
  | .ngx _ _ _ lineno => some lineno
  | .ioError _ lineno => lineno
  | .indexError => none
  | .stopIteration => none
  | .recursionError => none
  | .fuelErr => none

/-- The `strerror` attribute of an `NgxParserBaseException` (the callers
only read it on exceptions raised by `analyze`). -/
def exc_strerror : PyExc → String
  | .ngx _ strerror _ _ => strerror
  | _ => ""

/-- CPython message of a failed `open` on a missing path. -/
def file_not_found_msg (p : String) : String :=
  "[Errno 2] No such file or directory: \x27" ++ p ++ "\x27"

/-! ### Grammar table (`NGX_*` bit masks, `CONTEXTS`, `DIRECTIVES`) -/

def NGX_CONF_NOARGS : Nat := 0x00000001
def NGX_CONF_TAKE1 : Nat := 0x00000002
def NGX_CONF_TAKE2 : Nat := 0x00000004
def NGX_CONF_TAKE3 : Nat := 0x00000008
def NGX_CONF_TAKE4 : Nat := 0x00000010
def NGX_CONF_TAKE5 : Nat := 0x00000020
def NGX_CONF_TAKE6 : Nat := 0x00000040
def NGX_CONF_TAKE7 : Nat := 0x00000080
def NGX_CONF_BLOCK : Nat := 0x00000100
def NGX_CONF_FLAG : Nat := 0x00000200
def NGX_CONF_ANY : Nat := 0x00000400
def NGX_CONF_1MORE : Nat := 0x00000800
def NGX_CONF_2MORE : Nat := 0x00001000
def NGX_CONF_TAKE12 : Nat := NGX_CONF_TAKE1 ||| NGX_CONF_TAKE2

def NGX_MAIN_CONF : Nat := 0x00040000
def NGX_EVENT_CONF : Nat := 0x00080000
def NGX_HTTP_MAIN_CONF : Nat := 0x02000000
def NGX_HTTP_SRV_CONF : Nat := 0x04000000
def NGX_HTTP_LOC_CONF : Nat := 0x08000000
def NGX_HTTP_UPS_CONF : Nat := 0x10000000
def NGX_HTTP_SIF_CONF : Nat := 0x20000000
def NGX_HTTP_LIF_CONF : Nat := 0x40000000
def NGX_HTTP_LMT_CONF : Nat := 0x80000000

/-- The `CONTEXTS` mapping from ancestor-name tuples to context masks. -/
def CONTEXTS : List String → Option Nat
  | [] => some NGX_MAIN_CONF
  | ["events"] => some NGX_EVENT_CONF
  | ["http"] => some NGX_HTTP_MAIN_CONF
  | ["http", "server"] => some NGX_HTTP_SRV_CONF
  | ["http", "location"] => some NGX_HTTP_LOC_CONF
  | ["http", "upstream"] => some NGX_HTTP_UPS_CONF
  | ["http", "server", "if"] => some NGX_HTTP_SIF_CONF
  | ["http", "location", "if"] => some NGX_HTTP_LIF_CONF
  | ["http", "location", "limit_except"] => some NGX_HTTP_LMT_CONF
  | _ => none

/-- The `DIRECTIVES` table mapping directive names to their masks. -/
def DIRECTIVES : List (String × List Nat) :=
  [ ("events", [NGX_MAIN_CONF ||| NGX_CONF_BLOCK ||| NGX_CONF_NOARGS]),
    ("http", [NGX_MAIN_CONF ||| NGX_CONF_BLOCK ||| NGX_CONF_NOARGS]),
    ("server", [NGX_HTTP_MAIN_CONF ||| NGX_CONF_BLOCK ||| NGX_CONF_NOARGS]),
    ("location", [NGX_HTTP_MAIN_CONF ||| NGX_HTTP_SRV_CONF ||| NGX_HTTP_LOC_CONF |||
      NGX_CONF_1MORE ||| NGX_CONF_BLOCK]),
    ("upstream", [NGX_HTTP_MAIN_CONF ||| NGX_CONF_TAKE1 ||| NGX_CONF_BLOCK]),
    ("include", [NGX_MAIN_CONF ||| NGX_HTTP_MAIN_CONF ||| NGX_HTTP_SRV_CONF |||
      NGX_HTTP_LOC_CONF ||| NGX_CONF_TAKE1]),
    ("listen", [NGX_HTTP_SRV_CONF ||| NGX_CONF_1MORE]),
    ("server_name", [NGX_HTTP_SRV_CONF ||| NGX_CONF_1MORE]),
    ("root", [NGX_HTTP_MAIN_CONF ||| NGX_HTTP_SRV_CONF ||| NGX_HTTP_LOC_CONF ||| NGX_CONF_TAKE1]),
    ("index", [NGX_HTTP_MAIN_CONF ||| NGX_HTTP_SRV_CONF ||| NGX_HTTP_LOC_CONF ||| NGX_CONF_1MORE]),
    ("error_page", [NGX_HTTP_MAIN_CONF ||| NGX_HTTP_SRV_CONF ||| NGX_HTTP_LOC_CONF ||| NGX_CONF_2MORE]),
    ("access_log", [NGX_HTTP_MAIN_CONF ||| NGX_HTTP_SRV_CONF ||| NGX_HTTP_LOC_CONF ||| NGX_CONF_1MORE]),
    ("error_log", [NGX_MAIN_CONF ||| NGX_HTTP_MAIN_CONF ||| NGX_HTTP_SRV_CONF |||
      NGX_HTTP_LOC_CONF ||| NGX_CONF_1MORE]),
    ("worker_processes", [NGX_MAIN_CONF ||| NGX_CONF_TAKE1]),
    ("worker_connections", [NGX_EVENT_CONF ||| NGX_CONF_TAKE1]),
    ("keepalive_timeout", [NGX_HTTP_MAIN_CONF ||| NGX_HTTP_SRV_CONF ||| NGX_HTTP_LOC_CONF ||| NGX_CONF_TAKE12]),
    ("gzip", [NGX_HTTP_MAIN_CONF ||| NGX_HTTP_SRV_CONF ||| NGX_HTTP_LOC_CONF ||| NGX_CONF_FLAG]),
    ("return", [NGX_HTTP_SRV_CONF ||| NGX_HTTP_LOC_CONF ||| NGX_CONF_TAKE12]),
    ("try_files", [NGX_HTTP_LOC_CONF ||| NGX_CONF_2MORE]),
    ("proxy_pass", [NGX_HTTP_LOC_CONF ||| NGX_CONF_TAKE1]),
    ("if", [NGX_HTTP_SRV_CONF ||| NGX_HTTP_LOC_CONF ||| NGX_CONF_1MORE ||| NGX_CONF_BLOCK]) ]

/-! ### Statements and the analyzer -/

/-- A parsed statement node. `file` is present only in combine mode;
`block`/`includes`/`comment` are present only when the corresponding keys
are set on the Python dict. -/
inductive Stmt where
  | mk (file : Option String) (directive : String) (line : Nat) (args : List String)
       (block : Option (List Stmt)) (includes : Option (List Nat)) (comment : Option String)

def Stmt.file : Stmt → Option String | .mk f _ _ _ _ _ _ => f
def Stmt.directive : Stmt → String | .mk _ d _ _ _ _ _ => d
def Stmt.line : Stmt → Nat | .mk _ _ l _ _ _ _ => l
def Stmt.args : Stmt → List String | .mk _ _ _ a _ _ _ => a
def Stmt.block : Stmt → Option (List Stmt) | .mk _ _ _ _ b _ _ => b
def Stmt.includes : Stmt → Option (List Nat) | .mk _ _ _ _ _ i _ => i
def Stmt.comment : Stmt → Option String | .mk _ _ _ _ _ _ c => c

/-- `enter_block_ctx`: the context pushed when entering a statement's
block; a `location` nested under `http` collapses to
`("http", "location")`. -/
def enter_block_ctx (stmt : Stmt) (ctx : List String) : List String :=
  match ctx with
  | "http" :: _ =>
    if stmt.directive = "location" then ["http", "location"]
    else ctx ++ [stmt.directive]
  | _ => ctx ++ [stmt.directive]

/-- `valid_flag` inside `analyze`. -/
def valid_flag (x : String) : Bool :=
  py_lower x = "on" ∨ py_lower x = "off"

def msg_unknown_directive : String := "unknown directive \"%s\""
def msg_not_allowed : String := "\"%s\" directive is not allowed here"
def msg_no_opening : String := "directive \"%s\" has no opening \"\x7b\""
def msg_not_terminated : String := "directive \"%s\" is not terminated by \";\""
def msg_term_suffix : String := " is not terminated by \";\""
def msg_flag_fmt : String :=
  "invalid value \"%s\" in \"%%s\" directive, it must be \"on\" or \"off\""
def msg_invalid_args : String := "invalid number of arguments in \"%s\" directive"
def msg_unexpected_rbrace : String := "unexpected \"\x7d\""
def msg_eof : String := "unexpected end of file, expecting \"\x7d\""

/-- One iteration of `analyze`'s mask loop: `none` when the mask accepts
the statement, otherwise the (unformatted) failure reason it assigns. -/
def mask_fails (term : String) (args : List String) (mask : Nat) : Option String :=
  let n_args := args.length
  if mask &&& NGX_CONF_BLOCK ≠ 0 ∧ term ≠ lbrace then
    some msg_no_opening
  else if mask &&& NGX_CONF_BLOCK = 0 ∧ term ≠ ";" then
    some msg_not_terminated
  else if ((mask >>> n_args) &&& 1 ≠ 0 ∧ n_args ≤ 7) ∨
      (mask &&& NGX_CONF_FLAG ≠ 0 ∧ n_args = 1 ∧ valid_flag (args.headD "")) ∨
      (mask &&& NGX_CONF_ANY ≠ 0) ∨
      (mask &&& NGX_CONF_1MORE ≠ 0 ∧ 1 ≤ n_args) ∨
      (mask &&& NGX_CONF_2MORE ≠ 0 ∧ 2 ≤ n_args) then
    none
  else if mask &&& NGX_CONF_FLAG ≠ 0 ∧ n_args = 1 ∧ ¬ valid_flag (args.headD "") then
    some (py_mod msg_flag_fmt (args.headD ""))
  else
    some msg_invalid_args

/-- The `for mask in reversed(masks)` loop of `analyze`, carrying the
`reason` variable; returns `none` when some mask accepts, otherwise the
reason left by the last examined mask. -/
def scan_masks (term : String) (args : List String) : List Nat → String → Option String
  | [], reason => some reason
  | m :: ms, _reason =>
    match mask_fails term args m with
    | none => none
    | some r => scan_masks term args ms r

/-- `analyze`: validates one statement against the grammar table,
returning the exception it would raise. -/
def analyze (fname : String) (stmt : Stmt) (term : String) (ctx : List String)
    (strict check_ctx check_args : Bool) : Except PyExc Unit :=
  let directive := stmt.directive
  let line := stmt.line
  if strict ∧ (DIRECTIVES.lookup directive).isNone then
    .error (.ngx .dirUnknown (py_mod msg_unknown_directive directive) fname line)
  else
    match CONTEXTS ctx, DIRECTIVES.lookup directive with
    | some ctx_mask, some masks =>
      let args := stmt.args
      let masks1 := if check_ctx then masks.filter (fun m => m &&& ctx_mask ≠ 0) else masks
      if check_ctx ∧ masks1 = [] then
        .error (.ngx .dirCtx (py_mod msg_not_allowed directive) fname line)
      else if ¬ check_args then .ok ()
      else
        match scan_masks term args masks1.reverse "" with
        | none => .ok ()
        | some reason => .error (.ngx .dirArgs (py_mod reason directive) fname line)
    | _, _ => .ok ()

/-- `_prepare_if_args`: strips one layer of parentheses from an `if`
directive's argument list. -/
def prepare_if_args (args : List String) : List String :=
  match args with
  | [] => args
  | a0 :: rest =>
    if (a0.startsWith "(") ∧ (((a0 :: rest).getLast!).endsWith ")") then
      match rest with
      | [] =>
        let x := py_lstrip (a0.drop 1)
        let y := py_rstrip (x.dropRight 1)
        if y = "" then [] else [y]
      | _ :: _ =>
        let x := py_lstrip (a0.drop 1)
        let last := (a0 :: rest).getLast!
        let y := py_rstrip (last.dropRight 1)
        let mid := rest.dropLast
        let full := x :: mid ++ [y]
        let s := if x = "" then 1 else 0
        let e := full.length - (if y = "" then 1 else 0)
        (full.take e).drop s
    else args

/-! ### Lexer (`_iterescape`, `_iterlinecount`, `_lex_file_object`) -/

/-- A lexed token: text, line number, quoted flag. -/
abbrev Tok := String × Nat × Bool

/-- A character unit (one character, or a backslash-escaped pair) with
its line number. -/
abbrev CTok := String × Nat

/-- `_iterescape`: a backslash is paired with the following character
into a two-character unit. A trailing backslash raises `StopIteration`
inside the generator, which PEP 479 turns into a `RuntimeError` that
`fix_pep_479` swallows: the stream simply ends. -/
def iterescape : List Char → List String
  | [] => []
  | '\\' :: [] => []
  | '\\' :: c :: rest => ⟨['\\', c]⟩ :: iterescape rest
  | c :: rest => ⟨[c]⟩ :: iterescape rest

/-- `_iterlinecount`: annotate each unit with the current line number,
incremented when the unit ends with a newline (the newline unit itself
carries the incremented number, as in the source). -/
def iterlinecount (line : Nat) : List String → List CTok
  | [] => []
  | c :: rest =>
    let line' := if c.endsWith "\n" then line + 1 else line
    (c, line') :: iterlinecount line' rest

/-- The whitespace-skipping loop of the lexer: drop units until the first
non-space one; `none` when the stream is exhausted first. -/
def skip_spaces : List CTok → Option (CTok × List CTok)
  | [] => none
  | (c, l) :: rest => if py_isspace c then skip_spaces rest else some ((c, l), rest)

/-- The comment-reading loop: accumulate units until one ending in a
newline (which is dropped); `none` when the stream is exhausted first
(`fix_pep_479` then ends the token stream, dropping the comment). -/
def read_comment (acc : String) (c : String) : List CTok → Option (String × List CTok)
  | [] => if c.endsWith "\n" then some (acc, []) else none
  | (c', l') :: rest =>
    if c.endsWith "\n" then some (acc, (c', l') :: rest)
    else read_comment (acc ++ c) c' rest

/-- The parameter-expansion loop (`${...}`): append units to the token
until it ends in a closing brace or the current unit is whitespace; the
unit that stopped the loop is returned unconsumed. -/
def param_expand (token : String) (c : String) (l : Nat) :
    List CTok → Option (String × String × Nat × List CTok)
  | [] =>
    if ¬ token.endsWith rbrace ∧ ¬ py_isspace c then none
    else some (token, c, l, [])
  | (c', l') :: rest =>
    if ¬ token.endsWith rbrace ∧ ¬ py_isspace c then param_expand (token ++ c) c' l' rest
    else some (token, c, l, (c', l') :: rest)

/-- The quoted-string loop: accumulate until the closing quote, mapping
an escaped quote to a literal quote; `none` when the input ends before
the closing quote (silent truncation via `fix_pep_479`). -/
def read_quote (quote : String) (acc : String) : List CTok → Option (String × List CTok)
  | [] => none
  | (c, _) :: rest =>
    if c = quote then some (acc, rest)
    else read_quote quote (acc ++ (if c = (⟨['\\']⟩ : String) ++ quote then quote else c)) rest

/-- The main loop of `_lex_file_object`. The fuel is instantiated with
`length + 1` by `lex_file_object` below; every iteration consumes at
least one unit, so exhaustion is unreachable there. The external lexer
registry (`EXTERNAL_LEXERS`) is empty, so the custom-lexer branches of
the source are no-ops and the `next_token_is_directive` flag has no
observable effect. -/
def lex_loop : Nat → String → Nat → List CTok → List Tok
  | 0, _, _, _ => []
  | fuel+1, token0, token_line0, cs =>
    match cs with
    | [] => []
    | (c0, l0) :: rest0 =>
      let ws := py_isspace c0
      let emitted := if ws ∧ token0 ≠ "" then [(token0, token_line0, false)] else []
      let token1 := if ws then "" else token0
      match (if ws then skip_spaces rest0 else some ((c0, l0), rest0)) with
      | none => emitted
      | some ((c1, l1), rest1) =>
        emitted ++
          (if token1 = "" ∧ c1 = "#" then
            match read_comment "" c1 rest1 with
            | none => []
            | some (cmt, rest2) => (cmt, l1, false) :: lex_loop fuel "" token_line0 rest2
          else
            let token_line1 := if token1 = "" then l1 else token_line0
            match (if token1 ≠ "" ∧ token1.endsWith "$" ∧ c1 = lbrace
                   then param_expand token1 c1 l1 rest1
                   else some (token1, c1, l1, rest1)) with
            | none => []
            | some (token2, c2, l2, rest2) =>
              if c2 = "\"" ∨ c2 = "\x27" then
                if token2 ≠ "" then lex_loop fuel (token2 ++ c2) token_line1 rest2
                else
                  match read_quote c2 "" rest2 with
                  | none => []
                  | some (content, rest3) =>
                    (content, token_line1, true) :: lex_loop fuel "" token_line1 rest3
              else if c2 = lbrace ∨ c2 = rbrace ∨ c2 = ";" then
                (if token2 ≠ "" then [(token2, token_line1, false)] else []) ++
                  ((c2, l2, false) :: lex_loop fuel "" token_line1 rest2)
              else
                lex_loop fuel (token2 ++ c2) token_line1 rest2)

/-- `_lex_file_object` on a whole file content. A pending token at
end of input is dropped (the source has no final flush). -/
def lex_file_object (content : String) : List Tok :=
  let cs := iterlinecount 1 (iterescape content.data)
  lex_loop (cs.length + 1) "" 0 cs

/-! ### Brace balancer (`_balance_braces`) and `lex` -/

/-- `_balance_braces` as a function from the token list to the tokens it
yields plus the pending exception raised mid-stream (if any): a depth
drop below zero raises at the offending token (which is not yielded); a
positive depth at exhaustion raises at the last seen line. -/
def balance_braces_aux (filename : String) (depth : Int) (last_line : Nat) :
    List Tok → List Tok × Option PyExc
  | [] => ([], if depth > 0 then some (.ngx .syn msg_eof filename last_line) else none)
  | (t, l, q) :: rest =>
    let depth' := if t = rbrace ∧ ¬ q then depth - 1
                  else if t = lbrace ∧ ¬ q then depth + 1
                  else depth
    if depth' < 0 then ([], some (.ngx .syn msg_unexpected_rbrace filename l))
    else
      let (out, fin) := balance_braces_aux filename depth' l rest
      ((t, l, q) :: out, fin)

/-- `_balance_braces` from the start of a file. -/
def balance_braces (filename : String) (toks : List Tok) : List Tok × Option PyExc :=
  balance_braces_aux filename 0 0 toks

/-- `lex`: open the file, lex it, and balance braces. The result is the
list of tokens the generator yields together with the pending exception
(raised when the consumer pulls past the end); a missing file raises at
the first pull, before any token. -/
def lex_toks (fs : FS) (fname : String) : Except PyExc (List Tok × Option PyExc) :=
  match fs_read fs fname with
  | none => .error (.ioError (file_not_found_msg fname) none)
  | some content => .ok (balance_braces fname (lex_file_object content))

/-! ### Parser state, options, and `parse` -/

/-- A per-file error record (`{"error": ..., "line": ...}`). -/
structure FErr where
  error : String
  line : Option Nat
deriving DecidableEq, Repr

/-- A payload-level error record (`{"file": ..., "error": ..., "line": ...}`). -/
structure PErr where
  file : String
  error : String
  line : Option Nat
deriving DecidableEq, Repr

/-- A `FileParseResult` (one entry of the payload's `config` list). -/
structure FileResult where
  file : String
  status : String
  errors : List FErr
  parsed : List Stmt

/-- The aggregate payload returned by `parse`. -/
structure Payload where
  status : String
  errors : List PErr
  config : List FileResult

/-- The keyword options of `parse` (the `onerror` callback is fixed to
`None`, its default, so the `payload_error["callback"]` line is dead). -/
structure Opts where
  catch_errors : Bool := true
  ignore : List String := []
  single : Bool := false
  comments : Bool := false
  strict : Bool := false
  combine : Bool := false
  check_ctx : Bool := true
  check_args : Bool := true

/-- The state of the `parsing` dict while one file is being parsed
(its `file`/`parsed` fields are threaded separately). -/
structure FileSt where
  status : String
  errors : List FErr
deriving DecidableEq, Repr

/-- The state shared across the whole run: the payload's status/error
fields and the include worklist (`includes`) with its path-to-index
dedupe map (`included`). -/
structure GSt where
  p_status : String
  p_errors : List PErr
  includes : List (String × List String)
  included : List (String × Nat)
deriving DecidableEq, Repr

/-- The file-local half of `_handle_error`. -/
def handle_error_f (fst : FileSt) (e : PyExc) : FileSt :=
  { status := "failed", errors := fst.errors ++ [⟨exc_str e, exc_lineno e⟩] }

/-- The payload half of `_handle_error`. -/
def handle_error_g (file : String) (gst : GSt) (e : PyExc) : GSt :=
  { gst with p_status := "failed",
             p_errors := gst.p_errors ++ [⟨file, exc_str e, exc_lineno e⟩] }

/-- `_handle_error`: record the error against the current file and the
aggregate payload. -/
def handle_error (file : String) (e : PyExc) (fst : FileSt) (gst : GSt) : FileSt × GSt :=
  (handle_error_f fst e, handle_error_g file gst e)

/-- The argument-reading loop of `_parse`: pull tokens until an unquoted
`;`/brace terminator, collecting arguments and deferred comment texts.
`fin` is the exception pending at the end of the token list (pulling past
the end raises it, or `StopIteration` when the stream ended cleanly). -/
def read_args (fin : Option PyExc) :
    List Tok → Except PyExc (List String × List String × Tok × List Tok)
  | [] => .error (match fin with | some e => e | none => .stopIteration)
  | (token, l, quoted) :: rest =>
    if (token ≠ lbrace ∧ token ≠ ";" ∧ token ≠ rbrace) ∨ quoted then
      match read_args fin rest with
      | .error e => .error e
      | .ok (args, cmts, t, r) =>
        if token.startsWith "#" ∧ ¬ quoted then .ok (args, token.drop 1 :: cmts, t, r)
        else .ok (token :: args, cmts, t, r)
    else .ok ([], [], (token, l, quoted), rest)

/-- The include-expansion step of `_parse` (lines 862-886): resolve the
pattern, expand globs (zero matches is not an error), or probe a literal
path, recording a single error (or raising, in raise mode) when it
cannot be opened. -/
def resolve_include (fs : FS) (config_dir : String) (o : Opts) (file : String)
    (stmt_line : Nat) (arg0 : String) (fst : FileSt) (gst : GSt) :
    Except (PyExc × GSt) (List String × FileSt × GSt) :=
  let pattern := if py_isabs arg0 then arg0 else py_join config_dir arg0
  if has_magic pattern then
    .ok (str_sort (glob_glob fs pattern), fst, gst)
  else
    match fs_read fs pattern with
    | some _ => .ok ([pattern], fst, gst)
    | none =>
      let e := PyExc.ioError (file_not_found_msg pattern) (some stmt_line)
      if o.catch_errors then
        let (fst', gst') := handle_error file e fst gst
        .ok ([], fst', gst')
      else .error (e, gst)

/-- The worklist registration step (lines 888-894) for one resolved
path: a path not yet in `included` is appended to the worklist, and the
(new or existing) index is returned. -/
def enqueue_one (fname : String) (ctx : List String) (gst : GSt) : Nat × GSt :=
  match gst.included.lookup fname with
  | some idx => (idx, gst)
  | none =>
    let idx := gst.includes.length
    (idx, { gst with included := gst.included ++ [(fname, idx)],
                     includes := gst.includes ++ [(fname, ctx)] })

/-- Registration of all resolved paths of one include directive. -/
def enqueue_files (ctx : List String) : List String → GSt → List Nat × GSt
  | [], gst => ([], gst)
  | fname :: rest, gst =>
    let (idx, gst') := enqueue_one fname ctx gst
    let (idxs, gst'') := enqueue_files ctx rest gst'
    (idx :: idxs, gst'')

/-- The trailing comment nodes appended after a statement for comments
found among its arguments. -/
def comment_stmt (line : Nat) (c : String) : Stmt :=
  .mk none "#" line [] none none (some c)

/-- `_parse`: the recursive-descent loop. The fuel is instantiated with
`toks.length + 1` by `run_file`; every recursive call consumes at least
one token, so the `fuelErr` case is unreachable there. On an exception
the statements parsed so far and the file-local state are discarded (as
in the source, where the caller rebuilds `parsing`), but the global
state (payload errors and worklist) persists, so errors carry it. -/
def parse_stmts (fs : FS) (config_dir : String) (o : Opts) (fname : String)
    (fin : Option PyExc) :
    Nat → List Tok → List String → Bool → FileSt → GSt →
    Except (PyExc × GSt) (List Stmt × List Tok × FileSt × GSt)
  | 0, _, _, _, _, gst => .error (.fuelErr, gst)
  | fuel+1, toks, ctx, consume, fst, gst =>
    match toks with
    | [] =>
      match fin with
      | some e => .error (e, gst)
      | none => .ok ([], [], fst, gst)
    | (token, lineno, quoted) :: rest =>
      if token = rbrace ∧ ¬ quoted then .ok ([], rest, fst, gst)
      else if consume then
        (if token = lbrace ∧ ¬ quoted then
          match parse_stmts fs config_dir o fname fin fuel rest [] true fst gst with
          | .error eg => .error eg
          | .ok (_, rest', fst', gst') =>
            parse_stmts fs config_dir o fname fin fuel rest' ctx true fst' gst'
        else parse_stmts fs config_dir o fname fin fuel rest ctx true fst gst)
      else
        let directive := token
        if directive.startsWith "#" ∧ ¬ quoted then
          (if o.comments then
            let cstmt : Stmt :=
              .mk (if o.combine then some fname else none) "#" lineno [] none none
                (some (directive.drop 1))
            match parse_stmts fs config_dir o fname fin fuel rest ctx consume fst gst with
            | .error eg => .error eg
            | .ok (parsed, r, f, g) => .ok (cstmt :: parsed, r, f, g)
          else parse_stmts fs config_dir o fname fin fuel rest ctx consume fst gst)
        else
          match read_args fin rest with
          | .error e => .error (e, gst)
          | .ok (args, cmts, (term, _tl, tq), rest1) =>
            if directive ∈ o.ignore then
              (if term = lbrace ∧ ¬ tq then
                match parse_stmts fs config_dir o fname fin fuel rest1 [] true fst gst with
                | .error eg => .error eg
                | .ok (_, rest2, fst2, gst2) =>
                  parse_stmts fs config_dir o fname fin fuel rest2 ctx consume fst2 gst2
              else parse_stmts fs config_dir o fname fin fuel rest1 ctx consume fst gst)
            else
              let args1 := if directive = "if" then prepare_if_args args else args
              let stmt1 : Stmt :=
                .mk (if o.combine then some fname else none) directive lineno args1
                  none none none
              match analyze fname stmt1 term ctx o.strict o.check_ctx o.check_args with
              | .error e =>
                if o.catch_errors then
                  let (fst2, gst2) := handle_error fname e fst gst
                  if (exc_strerror e).endsWith msg_term_suffix then
                    (if term ≠ rbrace ∧ ¬ tq then
                      match parse_stmts fs config_dir o fname fin fuel rest1 [] true fst2 gst2 with
                      | .error eg => .error eg
                      | .ok (_, rest2, fst3, gst3) =>
                        parse_stmts fs config_dir o fname fin fuel rest2 ctx consume fst3 gst3
                    else .ok ([], rest1, fst2, gst2))
                  else parse_stmts fs config_dir o fname fin fuel rest1 ctx consume fst2 gst2
                else .error (e, gst)
              | .ok _ =>
                let inclR : Except (PyExc × GSt) (Option (List Nat) × FileSt × GSt) :=
                  if ¬ o.single ∧ directive = "include" then
                    match args1 with
                    | [] => .error (.indexError, gst)
                    | a0 :: _ =>
                      match resolve_include fs config_dir o fname lineno a0 fst gst with
                      | .error eg => .error eg
                      | .ok (fnames, fst2, gst2) =>
                        let (idxs, gst3) := enqueue_files ctx fnames gst2
                        .ok (some idxs, fst2, gst3)
                  else .ok (none, fst, gst)
                match inclR with
                | .error eg => .error eg
                | .ok (incl, fst2, gst2) =>
                  if term = lbrace ∧ ¬ tq then
                    let inner := enter_block_ctx stmt1 ctx
                    match parse_stmts fs config_dir o fname fin fuel rest1 inner false fst2 gst2 with
                    | .error eg => .error eg
                    | .ok (blk, rest2, fst3, gst3) =>
                      let stmt2 : Stmt :=
                        .mk stmt1.file directive lineno args1 (some blk) incl none
                      match parse_stmts fs config_dir o fname fin fuel rest2 ctx consume fst3 gst3 with
                      | .error eg => .error eg
                      | .ok (parsed, r, f, g) =>
                        .ok (stmt2 :: (cmts.map (comment_stmt lineno) ++ parsed), r, f, g)
                  else
                    let stmt2 : Stmt := .mk stmt1.file directive lineno args1 none incl none
                    match parse_stmts fs config_dir o fname fin fuel rest1 ctx consume fst2 gst2 with
                    | .error eg => .error eg
                    | .ok (parsed, r, f, g) =>
                      .ok (stmt2 :: (cmts.map (comment_stmt lineno) ++ parsed), r, f, g)

/-- The body of the worklist loop's `try` block: lex one file and parse
it from the root context it was enqueued with. -/
def run_file (fs : FS) (config_dir : String) (o : Opts) (fname : String)
    (ctx : List String) (gst : GSt) : Except (PyExc × GSt) (List Stmt × FileSt × GSt) :=
  match lex_toks fs fname with
  | .error e => .error (e, gst)
  | .ok (toks, fin) =>
    match parse_stmts fs config_dir o fname fin (toks.length + 1) toks ctx false ⟨"ok", []⟩ gst with
    | .error eg => .error eg
    | .ok (parsed, _, fst, gst') => .ok (parsed, fst, gst')

/-- One iteration of the worklist loop: parse the file, or catch the
exception and record a failed `FileParseResult` for it. -/
def process_file (fs : FS) (config_dir : String) (o : Opts) (fname : String)
    (ctx : List String) (gst : GSt) : FileResult × GSt :=
  match run_file fs config_dir o fname ctx gst with
  | .ok (parsed, fst, gst') =>
    ({ file := fname, status := fst.status, errors := fst.errors, parsed := parsed }, gst')
  | .error (e, gst') =>
    let (fst2, gst2) := handle_error fname e ⟨"failed", []⟩ gst'
    ({ file := fname, status := fst2.status, errors := fst2.errors, parsed := [] }, gst2)

/-- The worklist drain (`for fname, ctx in includes`), iterating by index
over the growing list. The fuel is instantiated with `fs.length + 1` by
`parse`; the dedupe invariant bounds the worklist by that value, so the
fuel never runs out there. -/
def drain (fs : FS) (config_dir : String) (o : Opts) :
    Nat → Nat → List FileResult → GSt → List FileResult × GSt
  | 0, _, acc, gst => (acc, gst)
  | fuel+1, i, acc, gst =>
    match gst.includes.drop i with
    | [] => (acc, gst)
    | (fname, ctx) :: _ =>
      let (entry, gst') := process_file fs config_dir o fname ctx gst
      drain fs config_dir o fuel (i+1) (acc ++ [entry]) gst'

/-! ### Combine transform (`_combine_parsed_configs`) -/

/-- Default `FileParseResult` used for out-of-range index accesses (the
source would raise `IndexError`; `parse` only produces in-range indices). -/
def default_fr : FileResult := { file := "", status := "ok", errors := [], parsed := [] }

/-- `_perform_includes`: depth-first inlining of include references; a
node with a `block` key has the block rewritten in place; a node with an
`includes` key is replaced by the referenced files' statement lists
(flattened recursively); any other node is yielded unchanged. The fuel
bounds the recursion depth (Python's native stack); `parse` passes a
value large enough for any acyclic include graph. -/
def perform_includes (cfgs : List FileResult) : Nat → List Stmt → List Stmt
  | 0, _ => []
  | fuel+1, block =>
    block.flatMap (fun stmt =>
      let stmt1 := match stmt.block with
        | some b => Stmt.mk stmt.file stmt.directive stmt.line stmt.args
            (some (perform_includes cfgs fuel b)) stmt.includes stmt.comment
        | none => stmt
      match stmt1.includes with
      | some idxs =>
        idxs.flatMap (fun i => perform_includes cfgs fuel ((cfgs.getD i default_fr).parsed))
      | none => [stmt1])

/-- `_combine_parsed_configs`: aggregate every file's errors and status
into one combined result whose `parsed` is the first queued file's
statement list with includes inlined. -/
def combine_parsed_configs (fuel : Nat) (old : Payload) : Payload :=
  let old_configs := old.config
  let base : FileResult :=
    { file := (old_configs.headD default_fr).file, status := "ok", errors := [], parsed := [] }
  let agg := old_configs.foldl (fun acc cfg =>
      { acc with errors := acc.errors ++ cfg.errors,
                 status := if cfg.status = "failed" then "failed" else acc.status }) base
  let combined :=
    { agg with parsed := perform_includes old_configs fuel (old_configs.headD default_fr).parsed }
  { status := old.status, errors := old.errors, config := [combined] }

/-- Fuel for the tree transforms: every statement at any depth consumed
at least one token, tokens are bounded by the total content length, and
the recursion depth of `_perform_includes` on an acyclic include graph
is bounded by the total statement count plus the file count. -/
def combine_fuel (fs : FS) : Nat :=
  (fs.map (fun p => p.2.length)).sum + fs.length + 2

/-- `_perform_includes` with the recursion budget made observable: the
same traversal as `perform_includes`, but running out of budget is the
interpreter's `RecursionError` instead of a silent cut. On an acyclic
include graph the two agree for any budget past the recursion depth; on
a cyclic graph no budget suffices and the error surfaces. -/
def perform_includes_ex (cfgs : List FileResult) :
    Nat → List Stmt → Except PyExc (List Stmt)
  | 0, _ => .error .recursionError
  | fuel+1, block =>
    block.foldl (fun acc stmt =>
      match acc with
      | .error e => .error e
      | .ok out =>
        match (match stmt.block with
               | some b =>
                 match perform_includes_ex cfgs fuel b with
                 | .error e => .error e
                 | .ok b1 => .ok (Stmt.mk stmt.file stmt.directive stmt.line stmt.args
                     (some b1) stmt.includes stmt.comment)
               | none => .ok stmt : Except PyExc Stmt) with
        | .error e => .error e
        | .ok stmt1 =>
          match stmt1.includes with
          | some idxs =>
            idxs.foldl (fun acc2 i =>
              match acc2 with
              | .error e => .error e
              | .ok out2 =>
                match perform_includes_ex cfgs fuel ((cfgs.getD i default_fr).parsed) with
                | .error e => .error e
                | .ok sub => .ok (out2 ++ sub)) (.ok out)
          | none => .ok (out ++ [stmt1])) (.ok [])

/-- `_combine_parsed_configs` with the combine recursion budget made
observable: the error of the inlining pass propagates. -/
def combine_parsed_configs_ex (fuel : Nat) (old : Payload) : Except PyExc Payload :=
  let old_configs := old.config
  let base : FileResult :=
    { file := (old_configs.headD default_fr).file, status := "ok", errors := [], parsed := [] }
  let agg := old_configs.foldl (fun acc cfg =>
      { acc with errors := acc.errors ++ cfg.errors,
                 status := if cfg.status = "failed" then "failed" else acc.status }) base
  match perform_includes_ex old_configs fuel (old_configs.headD default_fr).parsed with
  | .error e => .error e
  | .ok inlined =>
    .ok { status := old.status, errors := old.errors,
          config := [{ agg with parsed := inlined }] }

/-- `parse` with the combine step's recursion budget explicit: the
worklist drain (whose per-file exceptions the loop catches) followed by
the optional combine, which runs OUTSIDE the per-file handler, so an
exception raised there escapes to the caller. This is the
exception-transparent model of `parse`: `parse` below equals its `.ok`
projection whenever the combine recursion terminates within the
`combine_fuel` budget (in particular, always when not combining). -/
def parse_budget (fs : FS) (filename : String) (o : Opts) (budget : Nat) :
    Except PyExc Payload :=
  let config_dir := py_dirname filename
  let gst0 : GSt :=
    { p_status := "ok", p_errors := [], includes := [(filename, [])], included := [(filename, 0)] }
  let (cfg, gst) := drain fs config_dir o (fs.length + 1) 0 [] gst0
  let payload : Payload := { status := gst.p_status, errors := gst.p_errors, config := cfg }
  if o.combine then combine_parsed_configs_ex budget payload else .ok payload

/-- `parse`: drain the worklist starting from the root file, then
optionally combine. The drain fuel `fs.length + 1` dominates the
deduplicated worklist; the combine fuel dominates the recursion depth of
`_perform_includes` on acyclic graphs, where the source terminates. On a
cyclic include graph the source's `_perform_includes` recursion is
unbounded, which this totalized definition cannot express: there the
faithful model is `parse_budget`, which returns `RecursionError` for
every budget on such inputs. -/
def parse (fs : FS) (filename : String) (o : Opts) : Payload :=
  let config_dir := py_dirname filename
  let gst0 : GSt :=
    { p_status := "ok", p_errors := [], includes := [(filename, [])], included := [(filename, 0)] }
  let (cfg, gst) := drain fs config_dir o (fs.length + 1) 0 [] gst0
  let payload : Payload := { status := gst.p_status, errors := gst.p_errors, config := cfg }
  if o.combine then combine_parsed_configs (combine_fuel fs) payload else payload

/-! ### Readable transform (`create_readable_nginx_config`) -/

/-- A value of the readable nested-map view. -/
inductive RVal where
  | null
  | str (s : String)
  | strs (l : List String)
  | map (m : List (String × RVal))

/-- `OrderedDict` assignment `m[k] = v`: update an existing binding in
place, else append. -/
def od_insert (m : List (String × RVal)) (k : String) (v : RVal) : List (String × RVal) :=
  if m.any (fun p => p.1 = k) then m.map (fun p => if p.1 = k then (k, v) else p)
  else m ++ [(k, v)]

/-- `OrderedDict.update`: assign each binding of the second map in order. -/
def od_update (m : List (String × RVal)) (pairs : List (String × RVal)) :
    List (String × RVal) :=
  pairs.foldl (fun acc p => od_insert acc p.1 p.2) m

/-- `process_parsed_list` inside `create_readable_nginx_config`: the
directive loop threads the `OrderedDict` under construction, assigning
one key per node. The fuel bounds the recursion depth, as for the
combine transform. -/
def process_parsed_list (cfgs : List FileResult) : Nat → List Stmt → List (String × RVal)
  | 0, _ => []
  | fuel+1, l =>
    l.foldl (fun acc d =>
      let name := d.directive
      let args := d.args
      let key0 := if args ≠ [] ∧ (name = "location" ∨ name = "if")
                  then name ++ " " ++ (String.intercalate " " args)
                  else name
      let kv : String × RVal :=
        match d.block, d.includes with
        | some (b0 :: brest), _ =>
          (key0, .map (process_parsed_list cfgs fuel (b0 :: brest)))
        | _, some (i0 :: irest) =>
          let idxs := i0 :: irest
          let expanded := idxs.foldl (fun m i =>
              if i < cfgs.length then
                od_update m (process_parsed_list cfgs fuel ((cfgs.getD i default_fr).parsed))
              else m) []
          let key1 := if args ≠ [] then name ++ " " ++ args.headD "" else key0
          (key1, .map expanded)
        | _, _ =>
          (key0, match args with
                 | [] => .null
                 | [a] => .str a
                 | _ => .strs args)
      od_insert acc kv.1 kv.2) []

/-- The `info` block of the readable output. -/
structure ReadableInfo where
  main_file : String
  included_files : List String
  total_files_processed : Nat
  parsing_successful : Bool
deriving DecidableEq, Repr

/-- The two shapes returned by `create_readable_nginx_config`. -/
inductive Readable where
  | ok (status : String) (nginx : List (String × RVal)) (info : ReadableInfo)
  | failed (status : String) (errors : List PErr) (message : String)

/-- `create_readable_nginx_config`: the readable hierarchical view of a
parse payload. -/
def create_readable_nginx_config (fuel : Nat) (result : Payload) : Readable :=
  if result.status ≠ "ok" then
    .failed result.status result.errors "Parsing failed - see errors above"
  else
    let main := result.config.headD default_fr
    .ok result.status (process_parsed_list result.config fuel main.parsed)
      { main_file := main.file,
        included_files := (result.config.drop 1).map (fun c => c.file),
        total_files_processed := result.config.length,
        parsing_successful := true }

/-! ### Specification-side helper definitions used by the theorems -/

/-- The depth contribution of one token: `+1` for an unquoted opening
brace, `-1` for an unquoted closing brace. -/
def brace_step (t : Tok) : Int :=
  if t.1 = rbrace ∧ ¬ t.2.2 then -1
  else if t.1 = lbrace ∧ ¬ t.2.2 then 1
  else 0

/-- The brace depth of a token sequence. -/
def brace_depth (l : List Tok) : Int :=
  (l.map brace_step).sum

/-- The pure effect of `_parse`'s consume mode on the token stream: skip
tokens (recursively skipping nested blocks) until the unquoted `\x7d`
closing the current context, and return the tokens after it. The fuel
accounting matches `parse_stmts`. -/
def skip_consume : Nat → List Tok → List Tok
  | 0, _ => []
  | _+1, [] => []
  | fuel+1, (t, _, q) :: rest =>
    if t = rbrace ∧ ¬ q then rest
    else if t = lbrace ∧ ¬ q then skip_consume fuel (skip_consume fuel rest)
    else skip_consume fuel rest

/-- Well-formedness checker for one file's token stream: follows the
statement structure of `_parse` and succeeds only when no error would be
recorded or raised, returning the `(path, context)` pairs its include
directives resolve to (these are the candidates `_parse` registers on
the worklist) and the unconsumed tokens. -/
def wf_stmts (fs : FS) (config_dir : String) (o : Opts) (fname : String) :
    Nat → List Tok → List String → Option (List (String × List String) × List Tok)
  | 0, _, _ => none
  | fuel+1, toks, ctx =>
    match toks with
    | [] => some ([], [])
    | (token, lineno, quoted) :: rest =>
      if token = rbrace ∧ ¬ quoted then some ([], rest)
      else if token.startsWith "#" ∧ ¬ quoted then
        wf_stmts fs config_dir o fname fuel rest ctx
      else
        match read_args none rest with
        | .error _ => none
        | .ok (args, _cmts, (term, _tl, tq), rest1) =>
          if token ∈ o.ignore then
            (if term = lbrace ∧ ¬ tq then
              wf_stmts fs config_dir o fname fuel (skip_consume fuel rest1) ctx
            else wf_stmts fs config_dir o fname fuel rest1 ctx)
          else
            let args1 := if token = "if" then prepare_if_args args else args
            let stmt1 : Stmt :=
              .mk (if o.combine then some fname else none) token lineno args1 none none none
            match analyze fname stmt1 term ctx o.strict o.check_ctx o.check_args with
            | .error _ => none
            | .ok _ =>
              let inclP : Option (List (String × List String)) :=
                if ¬ o.single ∧ token = "include" then
                  match args1 with
                  | [] => none
                  | a0 :: _ =>
                    let pattern := if py_isabs a0 then a0 else py_join config_dir a0
                    if has_magic pattern then
                      some ((str_sort (glob_glob fs pattern)).map (fun f => (f, ctx)))
                    else if (fs_read fs pattern).isSome then some [(pattern, ctx)]
                    else none
                else some []
              match inclP with
              | none => none
              | some prs =>
                if term = lbrace ∧ ¬ tq then
                  match wf_stmts fs config_dir o fname fuel rest1 (enter_block_ctx stmt1 ctx) with
                  | none => none
                  | some (prs2, rest2) =>
                    match wf_stmts fs config_dir o fname fuel rest2 ctx with
                    | none => none
                    | some (prs3, rest3) => some (prs ++ prs2 ++ prs3, rest3)
                else
                  match wf_stmts fs config_dir o fname fuel rest1 ctx with
                  | none => none
                  | some (prs3, rest3) => some (prs ++ prs3, rest3)

/-- Well-formedness of a file and, recursively, of every file reached
through its includes: readable, balanced, and statement-clean in the
context it is parsed with. -/
def wf_include (fs : FS) (config_dir : String) (o : Opts) :
    Nat → String → List String → Bool
  | 0, _, _ => false
  | n+1, f, c =>
    match fs_read fs f with
    | none => false
    | some content =>
      match balance_braces f (lex_file_object content) with
      | (toks, none) =>
        match wf_stmts fs config_dir o f (toks.length + 1) toks c with
        | none => false
        | some (prs, _) => prs.all (fun p => wf_include fs config_dir o n p.1 p.2)
      | (_, some _) => false

/-- All include indices referenced from a statement list through nested
blocks, to the given depth. -/
def stmts_refs : Nat → List Stmt → List Nat
  | 0, _ => []
  | fuel+1, l =>
    l.flatMap (fun s =>
      (s.includes.getD []) ++ (match s.block with | some b => stmts_refs fuel b | none => []))

/-- All include indices referenced from a worklist entry, to the given
depth. -/
def file_refs (cfgs : List FileResult) (fuel : Nat) (i : Nat) : List Nat :=
  stmts_refs fuel (cfgs.getD i default_fr).parsed

/-- The key under which the readable transform files a statement node,
as the code computes it: the directive name, except that `location` and
`if` nodes with arguments are keyed by the name plus the space-joined
full argument list. -/
def readable_key (d : Stmt) : String :=
  if d.args ≠ [] ∧ (d.directive = "location" ∨ d.directive = "if")
  then d.directive ++ " " ++ String.intercalate " " d.args
  else d.directive

/-- The final key including the include-expansion override: a node with
a nonempty `includes` list and arguments is rekeyed by the name plus its
first argument. -/
def readable_key_full (d : Stmt) : String :=
  match d.block, d.includes with
  | some (_ :: _), _ => readable_key d
  | _, some (_ :: _) =>
    if d.args ≠ [] then d.directive ++ " " ++ d.args.headD "" else readable_key d
  | _, _ => readable_key d

/-- The value of a node with neither a nonempty block nor a nonempty
include list: `null` for zero arguments, the argument string for one,
the ordered argument list for two or more. -/
def readable_simple_val (args : List String) : RVal :=
  match args with
  | [] => .null
  | [a] => .str a
  | _ => .strs args

/-- The readable value of any node (blocks and include expansions
recurse through `process_parsed_list`). -/
def readable_val (cfgs : List FileResult) (fuel : Nat) (d : Stmt) : RVal :=
  match d.block, d.includes with
  | some (b0 :: brest), _ => .map (process_parsed_list cfgs fuel (b0 :: brest))
  | _, some (i0 :: irest) =>
    .map ((i0 :: irest).foldl (fun m i =>
      if i < cfgs.length then
        od_update m (process_parsed_list cfgs fuel ((cfgs.getD i default_fr).parsed))
      else m) [])
  | _, _ => readable_simple_val d.args

/-- The global state reached by `parse`'s recursive descent evolves only
through two primitive steps: recording an error against the payload, or
registering one resolved include path (which must be the root or an
existing file) on the worklist. -/
def GStep (root : String) (fs : FS) (g g' : GSt) : Prop :=
  (∃ file e, g' = handle_error_g file g e) ∨
  (∃ fname ctx, (fname = root ∨ fname ∈ fs.map Prod.fst) ∧
    g' = (enqueue_one fname ctx g).2)

/-- Reachability of global states along primitive steps. -/
def GReach (root : String) (fs : FS) : GSt → GSt → Prop :=
  Relation.ReflTransGen (GStep root fs)

/-- The global state carried out of `parse_stmts` (on both the normal
and the exceptional path). -/
def out_gst : Except (PyExc × GSt) (List Stmt × List Tok × FileSt × GSt) → GSt
  | .ok (_, _, _, g) => g
  | .error (_, g) => g

/-- The worklist invariant maintained across a run of `parse`: the
dedupe map `included` binds exactly the worklist paths, in order, to
their indices; the worklist paths are distinct; and every one of them is
the root or an existing file. -/
def g_wf (root : String) (fs : FS) (g : GSt) : Prop :=
  g.included = (g.includes.map Prod.fst).enum.map (fun p => (p.2, p.1)) ∧
  (g.includes.map Prod.fst).Nodup ∧
  (∀ f ∈ g.includes.map Prod.fst, f = root ∨ f ∈ fs.map Prod.fst)

/-- The initial global state of a run. -/
def gst_init (root : String) : GSt :=
  { p_status := "ok", p_errors := [], includes := [(root, [])], included := [(root, 0)] }

/-- The keys of a readable map value (empty for non-map values). -/
def rkeys : RVal → List String
  | .map m => m.map Prod.fst
  | _ => []

/-- Look up a key in a readable map value. -/
def rget (v : RVal) (k : String) : RVal :=
  match v with
  | .map m => ((m.filter (fun p => p.1 = k)).headD (k, .null)).2
  | _ => .null

/-- The nginx map of a readable result (empty on the failure shape). -/
def readable_nginx : Readable → List (String × RVal)
  | .ok _ m _ => m
  | .failed _ _ _ => []

/-! ## Theorems -/

set_option maxRecDepth 8000

/-! ### C4: the last examined mask's message wins -/

theorem scan_masks_append (term : String) (args : List String) :
    ∀ (l : List Nat) (r0 : String) (m : Nat) (r : String),
      (∀ x ∈ l, (mask_fails term args x).isSome) →
      mask_fails term args m = some r →
      scan_masks term args (l ++ [m]) r0 = some r := by
  intro l
  induction l with
  | nil =>
    intro r0 m r _ hm
    simp [scan_masks, hm]
  | cons x l ih =>
    intro r0 m r hall hm
    obtain ⟨rx, hrx⟩ := Option.isSome_iff_exists.mp (hall x (by simp))
    simp only [List.cons_append, scan_masks, hrx]
    exact ih rx m r (fun y hy => hall y (by simp [hy])) hm

/-- C4: whenever a statement fails the terminator/arity check against
every mask of its directive that survives context filtering, `analyze`
raises an `NgxParserDirectiveArgumentsError` whose message is the one
produced for the last mask examined in the reverse declaration-order
scan — that is, the first mask of the filtered list. -/
theorem C4_last_mask_message (fname : String) (stmt : Stmt) (term : String)
    (ctx : List String) (strict : Bool) (ctx_mask m0 : Nat)
    (masks ms : List Nat) (reason : String)
    (h1 : CONTEXTS ctx = some ctx_mask)
    (h2 : DIRECTIVES.lookup stmt.directive = some masks)
    (h3 : masks.filter (fun m => m &&& ctx_mask ≠ 0) = m0 :: ms)
    (h4 : ∀ m ∈ m0 :: ms, (mask_fails term stmt.args m).isSome)
    (h5 : mask_fails term stmt.args m0 = some reason) :
    analyze fname stmt term ctx strict true true =
      .error (.ngx .dirArgs (py_mod reason stmt.directive) fname stmt.line) := by
  have hlook : (DIRECTIVES.lookup stmt.directive).isNone = false := by
    simp [h2]
  have hscan : scan_masks term stmt.args (ms.reverse ++ [m0]) "" = some reason :=
    scan_masks_append term stmt.args ms.reverse "" m0 reason
      (fun x hx => h4 x (by simp at hx; simp [hx])) h5
  simp only [analyze, hlook, Bool.and_eq_true, h1, h2, h3]
  simp [hscan]

/-- Witness for C4: `gzip` requires a flag argument; with two non-flag
arguments and terminator `;` its single mask fails, and `analyze`
reports the invalid-number-of-arguments message of that mask. -/
theorem C4_last_mask_message_witness :
    analyze "f" (.mk none "gzip" 3 ["a", "b"] none none none) ";"
        ["http"] false true true =
      .error (.ngx .dirArgs (py_mod msg_invalid_args "gzip") "f" 3) :=
  C4_last_mask_message "f" (.mk none "gzip" 3 ["a", "b"] none none none) ";"
    ["http"] false NGX_HTTP_MAIN_CONF
    (NGX_HTTP_MAIN_CONF ||| NGX_HTTP_SRV_CONF ||| NGX_HTTP_LOC_CONF ||| NGX_CONF_FLAG)
    [NGX_HTTP_MAIN_CONF ||| NGX_HTTP_SRV_CONF ||| NGX_HTTP_LOC_CONF ||| NGX_CONF_FLAG]
    [] msg_invalid_args (by decide) (by decide) (by decide)
    (by decide) (by decide)

/-! ### C2: the brace balancer -/

theorem brace_depth_cons (t : Tok) (l : List Tok) :
    brace_depth (t :: l) = brace_step t + brace_depth l := by
  simp [brace_depth]

theorem lb_ne_rb : ¬ (lbrace = rbrace) := by decide

/-- One-step unfolding of the balancer on a cons cell, phrased through
`brace_step`. -/
theorem balance_aux_cons (filename tt : String) (tl : Nat) (tq : Bool)
    (d : Int) (ll : Nat) (rest : List Tok) :
    balance_braces_aux filename d ll ((tt, tl, tq) :: rest) =
      if d + brace_step (tt, tl, tq) < 0 then
        ([], some (.ngx .syn msg_unexpected_rbrace filename tl))
      else
        ((tt, tl, tq) :: (balance_braces_aux filename (d + brace_step (tt, tl, tq)) tl rest).1,
         (balance_braces_aux filename (d + brace_step (tt, tl, tq)) tl rest).2) := by
  by_cases h1 : tt = rbrace ∧ tq = false
  · have hs : d + brace_step (tt, tl, tq) = d - 1 := by
      simp [brace_step, h1.1, h1.2]; omega
    rw [hs]
    simp [balance_braces_aux, h1.1, h1.2, lb_ne_rb]
  · by_cases h2 : tt = lbrace ∧ tq = false
    · have hs : d + brace_step (tt, tl, tq) = d + 1 := by
        simp only [Bool.not_eq_true] at h1
        simp [brace_step, h1, h2.1, h2.2, lb_ne_rb]
      rw [hs]
      simp only [Bool.not_eq_true] at h1
      simp [balance_braces_aux, h1, h2.1, h2.2, lb_ne_rb]
    · have hs : d + brace_step (tt, tl, tq) = d := by
        simp only [Bool.not_eq_true] at h1 h2
        simp [brace_step, h1, h2]
      rw [hs]
      simp only [Bool.not_eq_true] at h1 h2
      simp [balance_braces_aux, h1, h2]

theorem balance_aux_pass (filename : String) :
    ∀ (ts : List Tok) (d : Int) (ll : Nat),
      (∀ n, n ≤ ts.length → 0 ≤ d + brace_depth (ts.take n)) →
      d + brace_depth ts = 0 →
      balance_braces_aux filename d ll ts = (ts, none) := by
  intro ts
  induction ts with
  | nil =>
    intro d ll _ hfin
    simp [brace_depth] at hfin
    simp [balance_braces_aux, hfin]
  | cons t rest ih =>
    intro d ll hpre hfin
    obtain ⟨tt, tl, tq⟩ := t
    have h1 : 0 ≤ d + brace_step (tt, tl, tq) := by
      have := hpre 1 (by simp)
      simpa [brace_depth_cons, brace_depth] using this
    rw [balance_aux_cons, if_neg (by omega)]
    rw [ih (d + brace_step (tt, tl, tq)) tl
      (fun n hn => by
        have := hpre (n+1) (by simpa using hn)
        simpa [List.take_succ_cons, brace_depth_cons, add_assoc] using this)
      (by
        rw [brace_depth_cons] at hfin
        omega)]

theorem balance_aux_eof (filename : String) :
    ∀ (ts : List Tok) (d : Int) (ll : Nat),
      (∀ n, n ≤ ts.length → 0 ≤ d + brace_depth (ts.take n)) →
      0 < d + brace_depth ts →
      ts ≠ [] →
      ∃ t, ts.getLast? = some t ∧
        balance_braces_aux filename d ll ts =
          (ts, some (.ngx .syn msg_eof filename t.2.1)) := by
  intro ts
  induction ts with
  | nil => intro d ll _ _ h; exact absurd rfl h
  | cons t rest ih =>
    intro d ll hpre hfin _
    obtain ⟨tt, tl, tq⟩ := t
    have h1 : 0 ≤ d + brace_step (tt, tl, tq) := by
      have := hpre 1 (by simp)
      simpa [brace_depth_cons, brace_depth] using this
    rcases eq_or_ne rest [] with hrest | hrest
    · subst hrest
      refine ⟨(tt, tl, tq), by simp, ?_⟩
      rw [balance_aux_cons, if_neg (by omega)]
      rw [brace_depth_cons] at hfin
      simp only [brace_depth, List.map_nil, List.sum_nil] at hfin
      simp [balance_braces_aux]
      omega
    · obtain ⟨u, hu, haux⟩ := ih (d + brace_step (tt, tl, tq)) tl
        (fun n hn => by
          have := hpre (n+1) (by simpa using hn)
          simpa [List.take_succ_cons, brace_depth_cons, add_assoc] using this)
        (by rw [brace_depth_cons] at hfin; omega) hrest
      refine ⟨u, Option.mem_def.mp (List.mem_getLast?_cons (Option.mem_def.mpr hu)), ?_⟩
      rw [balance_aux_cons, if_neg (by omega), haux]

theorem balance_aux_err (filename : String) :
    ∀ (ts : List Tok) (d : Int) (ll : Nat) (n : Nat),
      n < ts.length →
      (∀ k, k ≤ n → 0 ≤ d + brace_depth (ts.take k)) →
      d + brace_depth (ts.take (n+1)) < 0 →
      ∃ t, ts.get? n = some t ∧
        balance_braces_aux filename d ll ts =
          (ts.take n, some (.ngx .syn msg_unexpected_rbrace filename t.2.1)) := by
  intro ts
  induction ts with
  | nil => intro d ll n hn; simp at hn
  | cons t rest ih =>
    intro d ll n hn hpre hneg
    obtain ⟨tt, tl, tq⟩ := t
    match n with
    | 0 =>
      refine ⟨(tt, tl, tq), by simp, ?_⟩
      simp only [List.take_succ_cons, List.take_zero, brace_depth_cons] at hneg
      simp only [brace_depth, List.map_nil, List.sum_nil] at hneg
      rw [balance_aux_cons, if_pos (by omega)]
      simp
    | n+1 =>
      have h1 : 0 ≤ d + brace_step (tt, tl, tq) := by
        have := hpre 1 (by omega)
        simpa [brace_depth_cons, brace_depth] using this
      obtain ⟨u, hu, haux⟩ := ih (d + brace_step (tt, tl, tq)) tl n
        (by simpa using hn)
        (fun k hk => by
          have := hpre (k+1) (by omega)
          simpa [List.take_succ_cons, brace_depth_cons, add_assoc] using this)
        (by
          have := hneg
          simpa [List.take_succ_cons, brace_depth_cons, add_assoc] using this)
      refine ⟨u, by simpa using hu, ?_⟩
      rw [balance_aux_cons, if_neg (by omega), haux]
      simp

/-- C2: the brace balancer. If the running unquoted-brace depth would go
below zero at token `n`, it raises `unexpected "\x7d"` at that token's
line, yielding only the tokens before it; if the depth is positive when
the stream is exhausted, it raises the unexpected-end-of-file error at
the last token's line; otherwise it yields every token unchanged, in
order. -/
theorem C2_balance_spec (filename : String) (ts : List Tok) :
    ((∀ n, n < ts.length + 1 → 0 ≤ brace_depth (ts.take n)) → brace_depth ts = 0 →
      balance_braces filename ts = (ts, none)) ∧
    ((∀ n, n < ts.length + 1 → 0 ≤ brace_depth (ts.take n)) → 0 < brace_depth ts →
      ∃ t, ts.getLast? = some t ∧
        balance_braces filename ts = (ts, some (.ngx .syn msg_eof filename t.2.1))) ∧
    (∀ n, n < ts.length → (∀ k, k < n + 1 → 0 ≤ brace_depth (ts.take k)) →
      brace_depth (ts.take (n+1)) < 0 →
      ∃ t, ts.get? n = some t ∧
        balance_braces filename ts =
          (ts.take n, some (.ngx .syn msg_unexpected_rbrace filename t.2.1))) := by
  refine ⟨?_, ?_, ?_⟩
  · intro hpre hfin
    have := balance_aux_pass filename ts 0 0
      (fun n hn => by simpa using hpre n (by omega)) (by simpa using hfin)
    simpa [balance_braces] using this
  · intro hpre hfin
    have hne : ts ≠ [] := by
      rintro rfl
      simp [brace_depth] at hfin
    have := balance_aux_eof filename ts 0 0
      (fun n hn => by simpa using hpre n (by omega)) (by simpa using hfin) hne
    simpa [balance_braces] using this
  · intro n hn hpre hneg
    have := balance_aux_err filename ts 0 0 n hn
      (fun k hk => by simpa using hpre k (by omega)) (by simpa using hneg)
    simpa [balance_braces] using this

/-- Witness for C2: a concrete balanced token stream passes through
unchanged, a stream with a stray closing brace fails at its line, and an
unterminated one fails at the last line. -/
theorem C2_balance_spec_witness :
    balance_braces "f" [("http", 1, false), (lbrace, 1, false), (rbrace, 2, false)] =
      ([("http", 1, false), (lbrace, 1, false), (rbrace, 2, false)], none) :=
  (C2_balance_spec "f" [("http", 1, false), (lbrace, 1, false), (rbrace, 2, false)]).1
    (by decide) (by decide)

/-! ### C3: malformed trailing escape / unterminated quote -/

/-- C3 counterexample: the claim says lexing must surface a syntax error
for an unterminated quoted string or a trailing backslash. In fact the
lexer silently truncates: on `a;\n"xyz` it yields only the two tokens
before the quote, and `parse` reports status `ok` with no errors; on
`a;\nb\` the trailing escape (and the pending token) vanish silently. -/
theorem C3_counterexample :
    lex_file_object "a;\n\"xyz" = [("a", 1, false), (";", 1, false)] ∧
    (parse [("/c.conf", "a;\n\"xyz")] "/c.conf" {}).status = "ok" ∧
    (parse [("/c.conf", "a;\n\"xyz")] "/c.conf" {}).errors = [] ∧
    lex_file_object "a;\nb\\" = [("a", 1, false), (";", 1, false)] :=
  ⟨by with_unfolding_all rfl, by with_unfolding_all rfl, by with_unfolding_all rfl,
   by with_unfolding_all rfl⟩

theorem iterescape_cons_ne (c : Char) (hc : c ≠ '\\') (l : List Char) :
    iterescape (c :: l) = (⟨[c]⟩ : String) :: iterescape l := by
  cases l with
  | nil => simp [iterescape, hc]
  | cons d l' => simp [iterescape, hc]

theorem iterescape_append_backslash :
    ∀ cs : List Char, '\\' ∉ cs → iterescape (cs ++ ['\\']) = iterescape cs := by
  intro cs h
  induction cs with
  | nil => rfl
  | cons c rest ih =>
    have hc : c ≠ '\\' := fun hc => h (by simp [hc])
    have hr : '\\' ∉ rest := fun hr => h (by simp [hr])
    rw [List.cons_append, iterescape_cons_ne c hc, iterescape_cons_ne c hc, ih hr]

theorem read_quote_unterminated :
    ∀ (q acc : String) (cs : List CTok), (∀ x ∈ cs, x.1 ≠ q) →
      read_quote q acc cs = none := by
  intro q acc cs
  induction cs generalizing acc with
  | nil => intro _; rfl
  | cons x rest ih =>
    intro h
    obtain ⟨c, l⟩ := x
    have hne : c ≠ q := h (c, l) (by simp)
    simp only [read_quote, if_neg hne]
    exact ih _ (fun y hy => h y (by simp [hy]))

/-- C3 amended: lexing an input ending in a malformed trailing escape or
an unterminated quoted string silently truncates the token stream (no
syntax error reaches the caller): a trailing backslash is dropped by the
escape stage, the quote loop yields nothing when the closing quote never
arrives, and `parse` can report a clean `ok` payload on such input. -/
theorem C3_amended_silent_truncation :
    (∀ s : String, '\\' ∉ s.data → lex_file_object (s ++ "\\") = lex_file_object s) ∧
    (∀ (q acc : String) (cs : List CTok), (∀ x ∈ cs, x.1 ≠ q) →
      read_quote q acc cs = none) ∧
    lex_file_object "a;\n\"unterminated" = [("a", 1, false), (";", 1, false)] ∧
    (parse [("/c.conf", "a;\n\"unterminated")] "/c.conf" {}).status = "ok" ∧
    (parse [("/c.conf", "a;\n\"unterminated")] "/c.conf" {}).errors = [] := by
  refine ⟨?_, read_quote_unterminated, by with_unfolding_all rfl, by with_unfolding_all rfl,
    by with_unfolding_all rfl⟩
  intro s h
  show lex_loop _ "" 0 _ = lex_loop _ "" 0 _
  have hdata : (s ++ "\\").data = s.data ++ ['\\'] := by
    simp [String.data_append]
  rw [hdata, iterescape_append_backslash s.data h]

/-- Witness for C3's amended theorem at concrete inputs. -/
theorem C3_amended_silent_truncation_witness :
    lex_file_object ("a;\n" ++ "\\") = lex_file_object "a;\n" ∧
    read_quote "\"" "" [("u", 1), ("v", 1)] = none :=
  ⟨C3_amended_silent_truncation.1 "a;\n" (by decide),
   C3_amended_silent_truncation.2.1 "\"" "" [("u", 1), ("v", 1)] (by decide)⟩

/-! ### C9: the readable transform's keys and simple values -/

/-- C9 counterexample: a `location` node with two arguments (`= /x`) is
keyed by the directive name plus the space-joined *full* argument list
(`"location = /x"`), not by the name plus its first argument alone
(`"location ="`), contrary to the claim. -/
theorem C9_counterexample :
    rkeys (rget (rget (.map (readable_nginx (create_readable_nginx_config 100
      (parse [("/n.conf",
        "http \x7b\nserver \x7b\nlisten 80;\nlocation = /x \x7b\nroot /tmp;\n\x7d\n\x7d\n\x7d\n")]
        "/n.conf" {})))) "http") "server") = ["listen", "location = /x"] := by
  with_unfolding_all rfl

/-- C9 amended: the readable transform builds its map by inserting, for
each statement node in order, the key `readable_key_full` — the
directive name, except that `location`/`if` nodes with arguments are
keyed by the name plus the space-joined full argument list, and a node
with a nonempty expanded include list and arguments is keyed by the name
plus its first argument — and the value `readable_val`, which for a node
with neither a nonempty block nor a nonempty include list is `null` for
zero arguments, the argument string for one, and the ordered argument
list for two or more. -/
theorem C9_amended_readable_keys (cfgs : List FileResult) (fuel : Nat) (l : List Stmt) :
    process_parsed_list cfgs (fuel + 1) l =
      l.foldl (fun acc d => od_insert acc (readable_key_full d) (readable_val cfgs fuel d)) [] := by
  rw [process_parsed_list]
  refine List.foldl_ext _ _ [] (fun acc d _ => ?_)
  obtain ⟨df, dd, dl, da, db, di, dc⟩ := d
  match db, di with
  | some (b0 :: brest), _ =>
    simp only [readable_key_full, readable_val, Stmt.block, Stmt.includes, Stmt.directive,
      Stmt.args, readable_key]
  | none, some (i0 :: irest) =>
    simp only [readable_key_full, readable_val, Stmt.block, Stmt.includes, Stmt.directive,
      Stmt.args, readable_key]
  | some [], some (i0 :: irest) =>
    simp only [readable_key_full, readable_val, Stmt.block, Stmt.includes, Stmt.directive,
      Stmt.args, readable_key]
  | none, none =>
    simp only [readable_key_full, readable_val, Stmt.block, Stmt.includes, Stmt.directive,
      Stmt.args, readable_key, readable_simple_val]
  | none, some [] =>
    simp only [readable_key_full, readable_val, Stmt.block, Stmt.includes, Stmt.directive,
      Stmt.args, readable_key, readable_simple_val]
  | some [], none =>
    simp only [readable_key_full, readable_val, Stmt.block, Stmt.includes, Stmt.directive,
      Stmt.args, readable_key, readable_simple_val]
  | some [], some [] =>
    simp only [readable_key_full, readable_val, Stmt.block, Stmt.includes, Stmt.directive,
      Stmt.args, readable_key, readable_simple_val]

/-! ### C6: include resolution (glob with zero matches, unopenable literal) -/

theorem resolve_glob_empty (fs : FS) (config_dir : String) (o : Opts) (file : String)
    (line : Nat) (arg0 : String) (fst : FileSt) (gst : GSt) (pattern : String)
    (hp : pattern = if py_isabs arg0 then arg0 else py_join config_dir arg0)
    (hm : has_magic pattern = true)
    (hg : glob_glob fs pattern = []) :
    resolve_include fs config_dir o file line arg0 fst gst = .ok ([], fst, gst) := by
  rw [resolve_include, ← hp]
  simp [hm, hg, str_sort]

theorem resolve_literal_missing (fs : FS) (config_dir : String) (o : Opts) (file : String)
    (line : Nat) (arg0 : String) (fst : FileSt) (gst : GSt) (pattern : String)
    (hp : pattern = if py_isabs arg0 then arg0 else py_join config_dir arg0)
    (hm : has_magic pattern = false)
    (hr : fs_read fs pattern = none)
    (hc : o.catch_errors = true) :
    resolve_include fs config_dir o file line arg0 fst gst =
      .ok ([], handle_error_f fst (.ioError (file_not_found_msg pattern) (some line)),
              handle_error_g file gst (.ioError (file_not_found_msg pattern) (some line))) := by
  rw [resolve_include, ← hp]
  simp [hm, hr, hc, handle_error]

theorem parse_stmts_include_missing (fs : FS) (config_dir : String) (o : Opts)
    (fname : String) (fin : Option PyExc) (fuel lineno tl : Nat) (a0 : String)
    (rest rest1 : List Tok) (ctx : List String) (fst : FileSt) (gst : GSt)
    (cmts : List String) (pattern : String)
    (hra : read_args fin rest = .ok ([a0], cmts, (";", tl, false), rest1))
    (hig : "include" ∉ o.ignore)
    (hs : o.single = false)
    (han : analyze fname
      (.mk (if o.combine then some fname else none) "include" lineno [a0] none none none)
      ";" ctx o.strict o.check_ctx o.check_args = .ok ())
    (hp : pattern = if py_isabs a0 then a0 else py_join config_dir a0)
    (hm : has_magic pattern = false)
    (hr : fs_read fs pattern = none)
    (hc : o.catch_errors = true) :
    parse_stmts fs config_dir o fname fin (fuel+1) (("include", lineno, false) :: rest)
        ctx false fst gst =
      (match parse_stmts fs config_dir o fname fin fuel rest1 ctx false
          (handle_error_f fst (.ioError (file_not_found_msg pattern) (some lineno)))
          (handle_error_g fname gst (.ioError (file_not_found_msg pattern) (some lineno))) with
       | .ok (parsed, r, f, g) =>
          .ok ((.mk (if o.combine then some fname else none) "include" lineno [a0] none
            (some []) none) :: (cmts.map (comment_stmt lineno) ++ parsed), r, f, g)
       | .error eg => .error eg) := by
  rw [parse_stmts]
  simp only [hra, decide_not]
  have hsw : "include".startsWith "#" = false := by with_unfolding_all rfl
  simp +decide [hsw, hig, hs, han, hc,
    resolve_literal_missing fs config_dir o fname lineno a0 fst gst pattern hp hm hr hc,
    enqueue_files, Stmt.file]
  cases parse_stmts fs config_dir o fname fin fuel rest1 ctx false
      (handle_error_f fst (.ioError (file_not_found_msg pattern) (some lineno)))
      (handle_error_g fname gst (.ioError (file_not_found_msg pattern) (some lineno))) with
  | error eg => rfl
  | ok r => obtain ⟨parsed, rr, f, g⟩ := r; rfl

/-- C6: an include whose resolved pattern has glob metacharacters and
matches zero files resolves to no files with no error recorded and no
change to the worklist; a literal (non-glob) pattern that cannot be
opened records exactly one error in both the owning file's error list
and the payload's error list (both statuses becoming failed), leaves the
worklist untouched, enqueues nothing, and under the default recoverable
policy `_parse` appends the include statement with an empty `includes`
list and continues parsing the rest of the file. -/
theorem C6_include_resolution :
    (∀ (fs : FS) (config_dir : String) (o : Opts) (file : String) (line : Nat)
       (arg0 : String) (fst : FileSt) (gst : GSt) (pattern : String),
       pattern = (if py_isabs arg0 then arg0 else py_join config_dir arg0) →
       has_magic pattern = true → glob_glob fs pattern = [] →
       resolve_include fs config_dir o file line arg0 fst gst = .ok ([], fst, gst)) ∧
    (∀ (ctx : List String) (gst : GSt), enqueue_files ctx [] gst = ([], gst)) ∧
    (∀ (fs : FS) (config_dir : String) (o : Opts) (file : String) (line : Nat)
       (arg0 : String) (fst : FileSt) (gst : GSt) (pattern : String),
       pattern = (if py_isabs arg0 then arg0 else py_join config_dir arg0) →
       has_magic pattern = false → fs_read fs pattern = none → o.catch_errors = true →
       resolve_include fs config_dir o file line arg0 fst gst =
         .ok ([],
           { status := "failed",
             errors := fst.errors ++ [⟨file_not_found_msg pattern, some line⟩] },
           { p_status := "failed",
             p_errors := gst.p_errors ++ [⟨file, file_not_found_msg pattern, some line⟩],
             includes := gst.includes, included := gst.included })) ∧
    (∀ (fs : FS) (config_dir : String) (o : Opts) (fname : String) (fin : Option PyExc)
       (fuel lineno tl : Nat) (a0 : String) (rest rest1 : List Tok) (ctx : List String)
       (fst : FileSt) (gst : GSt) (cmts : List String) (pattern : String),
       read_args fin rest = .ok ([a0], cmts, (";", tl, false), rest1) →
       "include" ∉ o.ignore → o.single = false →
       analyze fname
         (.mk (if o.combine then some fname else none) "include" lineno [a0] none none none)
         ";" ctx o.strict o.check_ctx o.check_args = .ok () →
       pattern = (if py_isabs a0 then a0 else py_join config_dir a0) →
       has_magic pattern = false → fs_read fs pattern = none → o.catch_errors = true →
       parse_stmts fs config_dir o fname fin (fuel+1) (("include", lineno, false) :: rest)
           ctx false fst gst =
         (match parse_stmts fs config_dir o fname fin fuel rest1 ctx false
             (handle_error_f fst (.ioError (file_not_found_msg pattern) (some lineno)))
             (handle_error_g fname gst (.ioError (file_not_found_msg pattern) (some lineno))) with
          | .ok (parsed, r, f, g) =>
             .ok ((.mk (if o.combine then some fname else none) "include" lineno [a0] none
               (some []) none) :: (cmts.map (comment_stmt lineno) ++ parsed), r, f, g)
          | .error eg => .error eg)) :=
  ⟨resolve_glob_empty, fun _ _ => rfl,
   fun fs cd o file line a0 fst gst pattern hp hm hr hc =>
     resolve_literal_missing fs cd o file line a0 fst gst pattern hp hm hr hc,
   fun fs cd o fname fin fuel lineno tl a0 rest rest1 ctx fst gst cmts pattern
       hra hig hs han hp hm hr hc =>
     parse_stmts_include_missing fs cd o fname fin fuel lineno tl a0 rest rest1 ctx fst gst
       cmts pattern hra hig hs han hp hm hr hc⟩

/-- Witness for C6 at concrete inputs: a glob include matching nothing
resolves to no files and no error; a missing literal include records one
error in each list; the continuation equation holds on a concrete
stream. -/
theorem C6_include_resolution_witness :
    resolve_include [("/d/n.conf", "x")] "/d" {} "/d/n.conf" 1 "conf.d/*.conf"
        ⟨"ok", []⟩ ⟨"ok", [], [("/d/n.conf", [])], [("/d/n.conf", 0)]⟩ =
      .ok ([], ⟨"ok", []⟩, ⟨"ok", [], [("/d/n.conf", [])], [("/d/n.conf", 0)]⟩) ∧
    resolve_include [("/d/n.conf", "x")] "/d" {} "/d/n.conf" 1 "missing.conf"
        ⟨"ok", []⟩ ⟨"ok", [], [("/d/n.conf", [])], [("/d/n.conf", 0)]⟩ =
      .ok ([],
        { status := "failed",
          errors := [⟨file_not_found_msg "/d/missing.conf", some 1⟩] },
        { p_status := "failed",
          p_errors := [⟨"/d/n.conf", file_not_found_msg "/d/missing.conf", some 1⟩],
          includes := [("/d/n.conf", [])], included := [("/d/n.conf", 0)] }) :=
  ⟨C6_include_resolution.1 [("/d/n.conf", "x")] "/d" {} "/d/n.conf" 1 "conf.d/*.conf"
     ⟨"ok", []⟩ ⟨"ok", [], [("/d/n.conf", [])], [("/d/n.conf", 0)]⟩ "/d/conf.d/*.conf"
     (by with_unfolding_all rfl) (by with_unfolding_all rfl) (by with_unfolding_all rfl),
   C6_include_resolution.2.2.1 [("/d/n.conf", "x")] "/d" {} "/d/n.conf" 1 "missing.conf"
     ⟨"ok", []⟩ ⟨"ok", [], [("/d/n.conf", [])], [("/d/n.conf", 0)]⟩ "/d/missing.conf"
     (by with_unfolding_all rfl) (by with_unfolding_all rfl) (by with_unfolding_all rfl) rfl⟩

/-! ### C7: the recoverable error policy -/

/-- C7 counterexample: for `server \x7b listen 80; \x7d` at top level the
`server` statement fails validation with a context error and opens a
block, but the block is *not* consumed: its contents are examined (the
inner `listen` is validated as a sibling and records a second error).
The claim's "the entire block is consumed without examining its
contents" predicts a single error. -/
theorem C7_counterexample :
    (parse [("/n.conf", "server \x7b\nlisten 80;\n\x7d\n")] "/n.conf" {}).errors =
      [⟨"/n.conf", "\"server\" directive is not allowed here in /n.conf:1", some 1⟩,
       ⟨"/n.conf", "\"listen\" directive is not allowed here in /n.conf:2", some 2⟩] := by
  with_unfolding_all rfl

theorem skip_consume_le :
    ∀ (fuel : Nat) (l : List Tok), (skip_consume fuel l).length ≤ l.length := by
  intro fuel
  induction fuel with
  | zero => intro l; simp [skip_consume]
  | succ fuel ih =>
    intro l
    match l with
    | [] => simp [skip_consume]
    | (t, tl, q) :: rest =>
      by_cases h1 : t = rbrace ∧ q = false
      · simp [skip_consume, h1.1, h1.2]
      · by_cases h2 : t = lbrace ∧ q = false
        · simp only [Bool.not_eq_true] at h1
          simp only [skip_consume, h2.1, h2.2]
          rw [if_neg (fun hcon => lb_ne_rb hcon.1), if_pos (by simp)]
          simp only [List.length_cons]
          calc (skip_consume fuel (skip_consume fuel rest)).length
              ≤ (skip_consume fuel rest).length := ih _
            _ ≤ rest.length := ih _
            _ ≤ rest.length + 1 := by omega
        · simp only [Bool.not_eq_true] at h1 h2
          simp only [skip_consume]
          rw [if_neg (by simp [h1]), if_neg (by simp [h2])]
          simp only [List.length_cons]
          exact le_trans (ih rest) (by omega)

/-- Consume mode of `_parse` is a pure token skip: it records nothing,
parses nothing, and leaves the state untouched. -/
theorem parse_stmts_consume (fs : FS) (config_dir : String) (o : Opts) (fname : String) :
    ∀ (fuel : Nat) (toks : List Tok) (ctx : List String) (fst : FileSt) (gst : GSt),
      toks.length < fuel →
      parse_stmts fs config_dir o fname none fuel toks ctx true fst gst =
        .ok ([], skip_consume fuel toks, fst, gst) := by
  intro fuel
  induction fuel with
  | zero => intro toks ctx fst gst h; omega
  | succ fuel ih =>
    intro toks ctx fst gst h
    match toks with
    | [] => simp [parse_stmts, skip_consume]
    | (t, tl, q) :: rest =>
      have hr : rest.length < fuel := by simp at h; omega
      by_cases h1 : t = rbrace ∧ q = false
      · simp [parse_stmts, skip_consume, h1.1, h1.2]
      · by_cases h2 : t = lbrace ∧ q = false
        · simp [parse_stmts, skip_consume, h2.1, h2.2, lb_ne_rb, ih rest [] fst gst hr]
          exact ih _ ctx fst gst (lt_of_le_of_lt (skip_consume_le fuel rest) hr)
        · simp only [Bool.not_eq_true] at h1 h2
          simp [parse_stmts, skip_consume, h1, h2]
          exact ih rest ctx fst gst hr

theorem parse_stmts_err_skip (fs : FS) (config_dir : String) (o : Opts)
    (fname : String) (fuel lineno tl : Nat) (d : String)
    (rest rest1 : List Tok) (ctx : List String) (fst : FileSt) (gst : GSt)
    (args cmts : List String) (e : PyExc)
    (hd1 : d ≠ rbrace) (hd2 : d.startsWith "#" = false)
    (hra : read_args none rest = .ok (args, cmts, (lbrace, tl, false), rest1))
    (hig : d ∉ o.ignore)
    (han : analyze fname
      (.mk (if o.combine then some fname else none) d lineno
        (if d = "if" then prepare_if_args args else args) none none none)
      lbrace ctx o.strict o.check_ctx o.check_args = .error e)
    (hc : o.catch_errors = true)
    (hes : (exc_strerror e).endsWith msg_term_suffix = true)
    (hfl : rest1.length < fuel) :
    parse_stmts fs config_dir o fname none (fuel+1) ((d, lineno, false) :: rest)
        ctx false fst gst =
      parse_stmts fs config_dir o fname none fuel (skip_consume fuel rest1) ctx false
        (handle_error_f fst e) (handle_error_g fname gst e) := by
  rw [parse_stmts]
  simp only [hra]
  simp [hd1, hd2, hig, han, hc, hes, handle_error, lb_ne_rb,
    parse_stmts_consume fs config_dir o fname fuel rest1 [] _ _ hfl]

theorem parse_stmts_err_noskip (fs : FS) (config_dir : String) (o : Opts)
    (fname : String) (fin : Option PyExc) (fuel lineno tl : Nat) (d term : String)
    (tq : Bool) (rest rest1 : List Tok) (ctx : List String) (fst : FileSt) (gst : GSt)
    (args cmts : List String) (e : PyExc)
    (hd1 : d ≠ rbrace) (hd2 : d.startsWith "#" = false)
    (hra : read_args fin rest = .ok (args, cmts, (term, tl, tq), rest1))
    (hig : d ∉ o.ignore)
    (han : analyze fname
      (.mk (if o.combine then some fname else none) d lineno
        (if d = "if" then prepare_if_args args else args) none none none)
      term ctx o.strict o.check_ctx o.check_args = .error e)
    (hc : o.catch_errors = true)
    (hes : (exc_strerror e).endsWith msg_term_suffix = false) :
    parse_stmts fs config_dir o fname fin (fuel+1) ((d, lineno, false) :: rest)
        ctx false fst gst =
      parse_stmts fs config_dir o fname fin fuel rest1 ctx false
        (handle_error_f fst e) (handle_error_g fname gst e) := by
  rw [parse_stmts]
  simp only [hra]
  simp [hd1, hd2, hig, han, hc, hes, handle_error]

/-- C7 amended: under the default recoverable policy a statement that
fails validation has its error recorded in both the owning file's error
list and the payload's error list, both statuses becoming failed; the
opened block is consumed without examining its contents (resuming at the
sibling level) only when the failure is the wrong-terminator arity
failure (message ending `is not terminated by ";"`); for any other
validation failure (such as a context error) of a block-opening
statement, nothing is skipped and parsing continues right after the
statement's terminator, so the block's contents are examined at the same
level. -/
theorem C7_amended_recovery :
    (∀ (file : String) (e : PyExc) (fst : FileSt) (gst : GSt),
      handle_error file e fst gst =
        ({ status := "failed", errors := fst.errors ++ [⟨exc_str e, exc_lineno e⟩] },
         { p_status := "failed",
           p_errors := gst.p_errors ++ [⟨file, exc_str e, exc_lineno e⟩],
           includes := gst.includes, included := gst.included })) ∧
    (∀ (fs : FS) (config_dir : String) (o : Opts) (fname : String) (fuel : Nat)
       (toks : List Tok) (ctx : List String) (fst : FileSt) (gst : GSt),
      toks.length < fuel →
      parse_stmts fs config_dir o fname none fuel toks ctx true fst gst =
        .ok ([], skip_consume fuel toks, fst, gst)) ∧
    (∀ (fs : FS) (config_dir : String) (o : Opts) (fname : String) (fuel lineno tl : Nat)
       (d : String) (rest rest1 : List Tok) (ctx : List String) (fst : FileSt) (gst : GSt)
       (args cmts : List String) (e : PyExc),
      d ≠ rbrace → d.startsWith "#" = false →
      read_args none rest = .ok (args, cmts, (lbrace, tl, false), rest1) →
      d ∉ o.ignore →
      analyze fname
        (.mk (if o.combine then some fname else none) d lineno
          (if d = "if" then prepare_if_args args else args) none none none)
        lbrace ctx o.strict o.check_ctx o.check_args = .error e →
      o.catch_errors = true →
      (exc_strerror e).endsWith msg_term_suffix = true →
      rest1.length < fuel →
      parse_stmts fs config_dir o fname none (fuel+1) ((d, lineno, false) :: rest)
          ctx false fst gst =
        parse_stmts fs config_dir o fname none fuel (skip_consume fuel rest1) ctx false
          (handle_error_f fst e) (handle_error_g fname gst e)) ∧
    (∀ (fs : FS) (config_dir : String) (o : Opts) (fname : String) (fin : Option PyExc)
       (fuel lineno tl : Nat) (d term : String) (tq : Bool) (rest rest1 : List Tok)
       (ctx : List String) (fst : FileSt) (gst : GSt) (args cmts : List String) (e : PyExc),
      d ≠ rbrace → d.startsWith "#" = false →
      read_args fin rest = .ok (args, cmts, (term, tl, tq), rest1) →
      d ∉ o.ignore →
      analyze fname
        (.mk (if o.combine then some fname else none) d lineno
          (if d = "if" then prepare_if_args args else args) none none none)
        term ctx o.strict o.check_ctx o.check_args = .error e →
      o.catch_errors = true →
      (exc_strerror e).endsWith msg_term_suffix = false →
      parse_stmts fs config_dir o fname fin (fuel+1) ((d, lineno, false) :: rest)
          ctx false fst gst =
        parse_stmts fs config_dir o fname fin fuel rest1 ctx false
          (handle_error_f fst e) (handle_error_g fname gst e)) :=
  ⟨fun _ _ _ _ => rfl, parse_stmts_consume,
   fun fs cd o fname fuel lineno tl d rest rest1 ctx fst gst args cmts e
       hd1 hd2 hra hig han hc hes hfl =>
     parse_stmts_err_skip fs cd o fname fuel lineno tl d rest rest1 ctx fst gst args cmts e
       hd1 hd2 hra hig han hc hes hfl,
   fun fs cd o fname fin fuel lineno tl d term tq rest rest1 ctx fst gst args cmts e
       hd1 hd2 hra hig han hc hes =>
     parse_stmts_err_noskip fs cd o fname fin fuel lineno tl d term tq rest rest1 ctx fst gst
       args cmts e hd1 hd2 hra hig han hc hes⟩

/-- Witness for C7's amended theorem: on the concrete stream
`worker_processes 4 \x7b listen 80; \x7d worker_processes 2;` the
statement fails with the wrong-terminator message and the whole block is
skipped. -/
theorem C7_amended_recovery_witness :
    parse_stmts [] "" {} "/n.conf" none 10
        [("worker_processes", 1, false), ("4", 1, false), (lbrace, 1, false),
         ("listen", 2, false), ("80", 2, false), (";", 2, false), (rbrace, 3, false),
         ("worker_processes", 4, false), ("2", 4, false), (";", 4, false)]
        [] false ⟨"ok", []⟩ ⟨"ok", [], [("/n.conf", [])], [("/n.conf", 0)]⟩ =
      parse_stmts [] "" {} "/n.conf" none 9
        (skip_consume 9
          [("listen", 2, false), ("80", 2, false), (";", 2, false), (rbrace, 3, false),
           ("worker_processes", 4, false), ("2", 4, false), (";", 4, false)])
        [] false
        (handle_error_f ⟨"ok", []⟩
          (.ngx .dirArgs (py_mod msg_not_terminated "worker_processes") "/n.conf" 1))
        (handle_error_g "/n.conf" ⟨"ok", [], [("/n.conf", [])], [("/n.conf", 0)]⟩
          (.ngx .dirArgs (py_mod msg_not_terminated "worker_processes") "/n.conf" 1)) :=
  C7_amended_recovery.2.2.1 [] "" {} "/n.conf" 9 1 1 "worker_processes"
    [("4", 1, false), (lbrace, 1, false), ("listen", 2, false), ("80", 2, false),
     (";", 2, false), (rbrace, 3, false), ("worker_processes", 4, false), ("2", 4, false),
     (";", 4, false)]
    [("listen", 2, false), ("80", 2, false), (";", 2, false), (rbrace, 3, false),
     ("worker_processes", 4, false), ("2", 4, false), (";", 4, false)]
    [] ⟨"ok", []⟩ ⟨"ok", [], [("/n.conf", [])], [("/n.conf", 0)]⟩ ["4"] []
    (.ngx .dirArgs (py_mod msg_not_terminated "worker_processes") "/n.conf" 1)
    (by decide) (by with_unfolding_all rfl) (by with_unfolding_all rfl) (by decide)
    (by with_unfolding_all rfl) rfl (by with_unfolding_all rfl) (by decide)

/-! ### C8: combine mode flattens only what is reachable from the first entry -/

theorem getD_set_ne (l : List FileResult) (j i : Nat) (x : FileResult) (h : i ≠ j) :
    (l.set j x).getD i default_fr = l.getD i default_fr := by
  simp [List.getD_eq_getElem?_getD, List.getElem?_set_ne (Ne.symm h)]

theorem combine_foldl_agg :
    ∀ (cfgs : List FileResult) (acc : FileResult),
      cfgs.foldl (fun acc cfg =>
        { acc with errors := acc.errors ++ cfg.errors,
                   status := if cfg.status = "failed" then "failed" else acc.status }) acc =
      { acc with errors := acc.errors ++ cfgs.flatMap (fun c => c.errors),
                 status := if cfgs.any (fun c => c.status = "failed") then "failed"
                           else acc.status } := by
  intro cfgs
  induction cfgs with
  | nil => intro acc; simp
  | cons c rest ih =>
    intro acc
    rw [List.foldl_cons, ih]
    by_cases hc : c.status = "failed"
    · simp [hc, List.append_assoc]
    · simp [hc, List.append_assoc]

/-- Membership of a nested block's references in the parent list's
references (at one more depth). -/
theorem refs_block_sub (b : List Stmt) (s : Stmt) (b' : List Stmt)
    (hs : s ∈ b) (hb : s.block = some b') (fu : Nat) :
    ∀ r ∈ stmts_refs fu b', r ∈ stmts_refs (fu+1) b := by
  intro r hr
  rw [stmts_refs]
  refine List.mem_flatMap.mpr ⟨s, hs, ?_⟩
  rw [hb]
  simp [hr]

/-- Membership of a statement's include indices in the list's
references. -/
theorem refs_includes_sub (b : List Stmt) (s : Stmt) (idxs : List Nat)
    (hs : s ∈ b) (hi : s.includes = some idxs) (fu : Nat) :
    ∀ i ∈ idxs, i ∈ stmts_refs (fu+1) b := by
  intro i hii
  rw [stmts_refs]
  refine List.mem_flatMap.mpr ⟨s, hs, ?_⟩
  rw [hi]
  simp [hii]

theorem perform_includes_invariant (cfgs : List FileResult) (R : List Nat) (j : Nat)
    (l : List Stmt)
    (hj : j ∉ R)
    (hclosed : ∀ i ∈ R, ∀ fu : Nat,
      ∀ r ∈ stmts_refs fu (cfgs.getD i default_fr).parsed, r ∈ R) :
    ∀ (fuel : Nat) (b : List Stmt),
      (∀ fu : Nat, ∀ r ∈ stmts_refs fu b, r ∈ R) →
      perform_includes (cfgs.set j { cfgs.getD j default_fr with parsed := l }) fuel b =
        perform_includes cfgs fuel b := by
  intro fuel
  induction fuel with
  | zero => intro b _; rfl
  | succ fuel ih =>
    intro b hb
    rw [perform_includes, perform_includes]
    refine List.flatMap_congr (fun s hs => ?_)
    obtain ⟨sf, sd, sl, sa, sb, si, sc⟩ := s
    match sb, si with
    | none, none =>
      simp only [Stmt.block, Stmt.includes]
    | some bb, none =>
      simp only [Stmt.block, Stmt.includes, Stmt.file, Stmt.directive, Stmt.line, Stmt.args,
        Stmt.comment]
      rw [ih bb (fun fu r hr => hb (fu+1) r (refs_block_sub b _ bb hs rfl fu r hr))]
    | none, some idxs =>
      simp only [Stmt.block, Stmt.includes]
      refine List.flatMap_congr (fun i hi => ?_)
      have hiR : i ∈ R := hb 1 i (refs_includes_sub b _ idxs hs rfl 0 i hi)
      have hne : i ≠ j := fun h => hj (h ▸ hiR)
      rw [getD_set_ne cfgs j i _ hne]
      exact ih _ (fun fu r hr => hclosed i hiR fu r hr)
    | some bb, some idxs =>
      simp only [Stmt.block, Stmt.includes, Stmt.file, Stmt.directive, Stmt.line, Stmt.args,
        Stmt.comment]
      refine List.flatMap_congr (fun i hi => ?_)
      have hiR : i ∈ R := hb 1 i (refs_includes_sub b _ idxs hs rfl 0 i hi)
      have hne : i ≠ j := fun h => hj (h ▸ hiR)
      rw [getD_set_ne cfgs j i _ hne]
      exact ih _ (fun fu r hr => hclosed i hiR fu r hr)

/-- C8: in combine mode the combined result is a single entry rooted at
the first queued file — its `parsed` is the first file's statement list
with include references inlined recursively, its errors/status aggregate
every file's — and the combined parsed output does not depend on the
parsed content of any worklist entry outside a reference-closed set
containing the first entry: files reachable only from later entries
contribute no statements. -/
theorem C8_combine_reachability :
    (∀ (fuel : Nat) (p : Payload),
      combine_parsed_configs fuel p =
        { status := p.status, errors := p.errors,
          config := [{
            file := (p.config.headD default_fr).file,
            status := if p.config.any (fun c => c.status = "failed") then "failed" else "ok",
            errors := p.config.flatMap (fun c => c.errors),
            parsed := perform_includes p.config fuel (p.config.headD default_fr).parsed }] }) ∧
    (∀ (cfgs : List FileResult) (R : List Nat) (j : Nat) (l : List Stmt) (fuel : Nat),
      0 ∈ R → j ∉ R →
      (∀ i ∈ R, ∀ fu : Nat,
        ∀ r ∈ stmts_refs fu (cfgs.getD i default_fr).parsed, r ∈ R) →
      perform_includes (cfgs.set j { cfgs.getD j default_fr with parsed := l }) fuel
          ((cfgs.set j { cfgs.getD j default_fr with parsed := l }).getD 0 default_fr).parsed =
        perform_includes cfgs fuel (cfgs.getD 0 default_fr).parsed) := by
  constructor
  · intro fuel p
    rw [combine_parsed_configs]
    rw [combine_foldl_agg]
    rfl
  · intro cfgs R j l fuel h0 hj hclosed
    have hne : (0 : Nat) ≠ j := fun h => hj (h ▸ h0)
    rw [getD_set_ne cfgs j 0 _ hne]
    exact perform_includes_invariant cfgs R j l hj hclosed fuel _
      (fun fu r hr => hclosed 0 h0 fu r hr)

/-- Witness for C8 at a concrete three-entry payload: entry 2 is
referenced by nobody reachable from entry 0 (the closed set is `[0, 1]`),
so replacing its parsed content leaves the combined parsed output
unchanged. -/
theorem C8_combine_reachability_witness :
    perform_includes
        ([{ file := "/a", status := "ok", errors := [],
            parsed := [.mk none "include" 1 ["b"] none (some [1]) none] },
          { file := "/b", status := "ok", errors := [],
            parsed := [.mk none "gzip" 1 ["on"] none none none] },
          { file := "/c", status := "ok", errors := [],
            parsed := [.mk none "root" 1 ["/x"] none none none] }].set 2
          { file := "/c", status := "ok", errors := [],
            parsed := [.mk none "worker_processes" 9 ["4"] none none none] }) 5
        (([{ file := "/a", status := "ok", errors := [],
             parsed := [.mk none "include" 1 ["b"] none (some [1]) none] },
           { file := "/b", status := "ok", errors := [],
             parsed := [.mk none "gzip" 1 ["on"] none none none] },
           { file := "/c", status := "ok", errors := [],
             parsed := [.mk none "root" 1 ["/x"] none none none] }].set 2
           { file := "/c", status := "ok", errors := [],
             parsed := [.mk none "worker_processes" 9 ["4"] none none none] }).getD 0
          default_fr).parsed =
      perform_includes
        [{ file := "/a", status := "ok", errors := [],
           parsed := [.mk none "include" 1 ["b"] none (some [1]) none] },
         { file := "/b", status := "ok", errors := [],
           parsed := [.mk none "gzip" 1 ["on"] none none none] },
         { file := "/c", status := "ok", errors := [],
           parsed := [.mk none "root" 1 ["/x"] none none none] }] 5
        ([{ file := "/a", status := "ok", errors := [],
            parsed := [.mk none "include" 1 ["b"] none (some [1]) none] },
          { file := "/b", status := "ok", errors := [],
            parsed := [.mk none "gzip" 1 ["on"] none none none] },
          { file := "/c", status := "ok", errors := [],
            parsed := [.mk none "root" 1 ["/x"] none none none] }].getD 0 default_fr).parsed :=
  C8_combine_reachability.2
    [{ file := "/a", status := "ok", errors := [],
       parsed := [.mk none "include" 1 ["b"] none (some [1]) none] },
     { file := "/b", status := "ok", errors := [],
       parsed := [.mk none "gzip" 1 ["on"] none none none] },
     { file := "/c", status := "ok", errors := [],
       parsed := [.mk none "root" 1 ["/x"] none none none] }]
    [0, 1] 2 [.mk none "worker_processes" 9 ["4"] none none none] 5
    (by decide) (by decide)
    (by
      intro i hi fu r hr
      match i, hi with
      | 0, _ =>
        match fu, hr with
        | fu+1, hr => simp [stmts_refs, Stmt.includes, Stmt.block] at hr; simp [hr]
      | 1, _ =>
        match fu, hr with
        | fu+1, hr => simp [stmts_refs, Stmt.includes, Stmt.block] at hr)

/-! ### Worklist evolution machinery (for C5, C10, C1) -/

theorem lookup_none_not_mem {β : Type} (k : String) :
    ∀ (l : List (String × β)), l.lookup k = none → k ∉ l.map Prod.fst := by
  intro l
  induction l with
  | nil => simp
  | cons p rest ih =>
    obtain ⟨k', v⟩ := p
    intro h
    simp only [List.lookup] at h
    by_cases hk : k = k'
    · simp [hk] at h
    · have : (k == k') = false := beq_eq_false_iff_ne.mpr hk
      rw [this] at h
      simp only [List.map_cons, List.mem_cons]
      rintro (h1 | h2)
      · exact hk h1
      · exact ih h h2

theorem lookup_some_mem {β : Type} (k : String) (v : β) :
    ∀ (l : List (String × β)), l.lookup k = some v → k ∈ l.map Prod.fst := by
  intro l
  induction l with
  | nil => simp
  | cons p rest ih =>
    obtain ⟨k', v'⟩ := p
    intro h
    simp only [List.lookup] at h
    by_cases hk : k = k'
    · simp [hk]
    · have : (k == k') = false := beq_eq_false_iff_ne.mpr hk
      rw [this] at h
      simp only [List.map_cons, List.mem_cons]
      exact Or.inr (ih h)

/-- One step extends the worklist by zero entries (error recording or a
dedupe hit) or by one appended entry. -/
theorem gstep_includes_append (root : String) (fs : FS) (g g' : GSt)
    (h : GStep root fs g g') : ∃ t, g'.includes = g.includes ++ t := by
  rcases h with ⟨file, e, rfl⟩ | ⟨fname, ctx, _, rfl⟩
  · exact ⟨[], by simp [handle_error_g]⟩
  · rcases hl : g.included.lookup fname with _ | idx
    · exact ⟨[(fname, ctx)], by simp [enqueue_one, hl]⟩
    · exact ⟨[], by simp [enqueue_one, hl]⟩

theorem gstep_included_append (root : String) (fs : FS) (g g' : GSt)
    (h : GStep root fs g g') : ∃ t, g'.included = g.included ++ t := by
  rcases h with ⟨file, e, rfl⟩ | ⟨fname, ctx, _, rfl⟩
  · exact ⟨[], by simp [handle_error_g]⟩
  · rcases hl : g.included.lookup fname with _ | idx
    · exact ⟨[(fname, g.includes.length)], by simp [enqueue_one, hl]⟩
    · exact ⟨[], by simp [enqueue_one, hl]⟩

theorem gstep_wf (root : String) (fs : FS) (g g' : GSt)
    (hw : g_wf root fs g) (h : GStep root fs g g') : g_wf root fs g' := by
  obtain ⟨heq, hnd, hmem⟩ := hw
  rcases h with ⟨file, e, rfl⟩ | ⟨fname, ctx, hfm, rfl⟩
  · exact ⟨heq, hnd, hmem⟩
  · rcases hl : g.included.lookup fname with _ | idx
    case some => simpa [enqueue_one, hl] using ⟨heq, hnd, hmem⟩
    case none =>
      simp only [enqueue_one, hl]
      have hkeys : g.included.map Prod.fst = g.includes.map Prod.fst := by
        rw [heq]
        simp [List.map_map, Function.comp]
        exact (List.enum_map_snd _)
      have hnotmem : fname ∉ g.includes.map Prod.fst := by
        rw [← hkeys]
        exact lookup_none_not_mem fname g.included hl
      refine ⟨?_, ?_, ?_⟩
      · show g.included ++ [(fname, g.includes.length)] =
          ((g.includes ++ [(fname, ctx)]).map Prod.fst).enum.map (fun p => (p.2, p.1))
        rw [List.map_append, List.enum_append]
        simp only [List.map_append, heq]
        congr 1
        simp [List.enumFrom, List.map_cons]
      · show ((g.includes ++ [(fname, ctx)]).map Prod.fst).Nodup
        rw [List.map_append]
        simp only [List.map_cons, List.map_nil]
        rw [List.nodup_append]
        exact ⟨hnd, List.nodup_singleton _, by simpa using hnotmem⟩
      · intro f hf
        rw [List.map_append] at hf
        rcases List.mem_append.mp hf with h1 | h1
        · exact hmem f h1
        · simp at h1
          subst h1
          exact hfm

theorem greach_includes_append (root : String) (fs : FS) (g g' : GSt)
    (h : GReach root fs g g') : ∃ t, g'.includes = g.includes ++ t := by
  induction h with
  | refl => exact ⟨[], by simp⟩
  | tail _ hstep ih =>
    obtain ⟨t1, ht1⟩ := ih
    obtain ⟨t2, ht2⟩ := gstep_includes_append root fs _ _ hstep
    exact ⟨t1 ++ t2, by rw [ht2, ht1, List.append_assoc]⟩

theorem greach_included_append (root : String) (fs : FS) (g g' : GSt)
    (h : GReach root fs g g') : ∃ t, g'.included = g.included ++ t := by
  induction h with
  | refl => exact ⟨[], by simp⟩
  | tail _ hstep ih =>
    obtain ⟨t1, ht1⟩ := ih
    obtain ⟨t2, ht2⟩ := gstep_included_append root fs _ _ hstep
    exact ⟨t1 ++ t2, by rw [ht2, ht1, List.append_assoc]⟩

theorem greach_wf (root : String) (fs : FS) (g g' : GSt)
    (hw : g_wf root fs g) (h : GReach root fs g g') : g_wf root fs g' := by
  induction h with
  | refl => exact hw
  | tail _ hstep ih => exact gstep_wf root fs _ _ ih hstep

/-- Lookup is stable under appending bindings. -/
theorem lookup_append_some {β : Type} (k : String) (v : β) :
    ∀ (l t : List (String × β)), l.lookup k = some v → (l ++ t).lookup k = some v := by
  intro l t
  induction l with
  | nil => simp [List.lookup]
  | cons p rest ih =>
    obtain ⟨k', v'⟩ := p
    intro hk
    simp only [List.lookup, List.cons_append] at hk ⊢
    by_cases hkk : k = k'
    · have hb : (k == k') = true := beq_iff_eq.mpr hkk
      simp only [hb] at hk ⊢
      exact hk
    · have hb : (k == k') = false := beq_eq_false_iff_ne.mpr hkk
      simp only [hb] at hk ⊢
      exact ih hk

/-- A dedupe-map binding, once made, survives the rest of the run with
the same index. -/
theorem greach_lookup_stable (root : String) (fs : FS) (g g' : GSt)
    (h : GReach root fs g g')
    (k : String) (v : Nat) (hk : g.included.lookup k = some v) :
    g'.included.lookup k = some v := by
  obtain ⟨t, ht⟩ := greach_included_append root fs g g' h
  rw [ht]
  exact lookup_append_some k v g.included t hk

theorem handle_error_g_greach (root : String) (fs : FS) (file : String) (g : GSt) (e : PyExc) :
    GReach root fs g (handle_error_g file g e) :=
  Relation.ReflTransGen.single (Or.inl ⟨file, e, rfl⟩)

theorem enqueue_one_greach (root : String) (fs : FS) (fname : String) (ctx : List String)
    (g : GSt) (hm : fname = root ∨ fname ∈ fs.map Prod.fst) :
    GReach root fs g (enqueue_one fname ctx g).2 :=
  Relation.ReflTransGen.single (Or.inr ⟨fname, ctx, hm, rfl⟩)

theorem enqueue_files_greach (root : String) (fs : FS) (ctx : List String) :
    ∀ (fnames : List String) (g : GSt),
      (∀ f ∈ fnames, f = root ∨ f ∈ fs.map Prod.fst) →
      GReach root fs g (enqueue_files ctx fnames g).2 := by
  intro fnames
  induction fnames with
  | nil => intro g _; exact Relation.ReflTransGen.refl
  | cons f rest ih =>
    intro g hm
    have h1 : GReach root fs g (enqueue_one f ctx g).2 :=
      enqueue_one_greach root fs f ctx g (hm f (by simp))
    have h2 := ih (enqueue_one f ctx g).2 (fun x hx => hm x (by simp [hx]))
    refine Relation.ReflTransGen.trans h1 ?_
    simp only [enqueue_files]
    exact h2

theorem resolve_fnames_mem (fs : FS) (cd : String) (o : Opts) (file : String) (line : Nat)
    (a0 : String) (fst : FileSt) (gst : GSt) (fnames : List String) (fst' : FileSt) (gst' : GSt)
    (h : resolve_include fs cd o file line a0 fst gst = .ok (fnames, fst', gst')) :
    ∀ f ∈ fnames, f ∈ fs.map Prod.fst := by
  intro f hf
  rw [resolve_include] at h
  by_cases hm : has_magic (if py_isabs a0 then a0 else py_join cd a0) = true
  · rw [if_pos hm] at h
    simp only [Except.ok.injEq, Prod.mk.injEq] at h
    obtain ⟨h1, -, -⟩ := h
    rw [← h1] at hf
    have hf2 := (List.mergeSort_perm _ _).mem_iff.mp hf
    rw [glob_glob] at hf2
    exact List.mem_dedup.mp (List.mem_of_mem_filter hf2)
  · rw [if_neg hm] at h
    rcases hr : fs_read fs (if py_isabs a0 then a0 else py_join cd a0) with _ | c
    · rw [hr] at h
      by_cases hc : o.catch_errors = true
      · rw [if_pos hc] at h
        simp only [handle_error, Except.ok.injEq, Prod.mk.injEq] at h
        obtain ⟨h1, -, -⟩ := h
        rw [← h1] at hf
        simp at hf
      · rw [if_neg hc] at h
        exact absurd h (by simp)
    · rw [hr] at h
      simp only [Except.ok.injEq, Prod.mk.injEq] at h
      obtain ⟨h1, -, -⟩ := h
      rw [← h1] at hf
      simp at hf
      subst hf
      exact lookup_some_mem _ c fs hr

theorem resolve_greach_ok (root : String) (fs : FS) (cd : String) (o : Opts) (file : String)
    (line : Nat) (a0 : String) (fst : FileSt) (gst : GSt) (fnames : List String)
    (fst' : FileSt) (gst' : GSt)
    (h : resolve_include fs cd o file line a0 fst gst = .ok (fnames, fst', gst')) :
    GReach root fs gst gst' := by
  rw [resolve_include] at h
  by_cases hm : has_magic (if py_isabs a0 then a0 else py_join cd a0) = true
  · rw [if_pos hm] at h
    simp only [Except.ok.injEq, Prod.mk.injEq] at h
    obtain ⟨-, -, h3⟩ := h
    rw [← h3]
    exact Relation.ReflTransGen.refl
  · rw [if_neg hm] at h
    rcases hr : fs_read fs (if py_isabs a0 then a0 else py_join cd a0) with _ | c
    · rw [hr] at h
      by_cases hc : o.catch_errors = true
      · rw [if_pos hc] at h
        simp only [handle_error, Except.ok.injEq, Prod.mk.injEq] at h
        obtain ⟨-, -, h3⟩ := h
        rw [← h3]
        exact handle_error_g_greach root fs file gst _
      · rw [if_neg hc] at h
        exact absurd h (by simp)
    · rw [hr] at h
      simp only [Except.ok.injEq, Prod.mk.injEq] at h
      obtain ⟨-, -, h3⟩ := h
      rw [← h3]
      exact Relation.ReflTransGen.refl

theorem resolve_greach_err (root : String) (fs : FS) (cd : String) (o : Opts) (file : String)
    (line : Nat) (a0 : String) (fst : FileSt) (gst : GSt) (e : PyExc) (g' : GSt)
    (h : resolve_include fs cd o file line a0 fst gst = .error (e, g')) :
    GReach root fs gst g' := by
  rw [resolve_include] at h
  by_cases hm : has_magic (if py_isabs a0 then a0 else py_join cd a0) = true
  · rw [if_pos hm] at h
    exact absurd h (by simp)
  · rw [if_neg hm] at h
    rcases hr : fs_read fs (if py_isabs a0 then a0 else py_join cd a0) with _ | c
    · rw [hr] at h
      by_cases hc : o.catch_errors = true
      · rw [if_pos hc] at h
        simp [handle_error] at h
      · rw [if_neg hc] at h
        simp only [Except.error.injEq, Prod.mk.injEq] at h
        rw [← h.2]
        exact Relation.ReflTransGen.refl
    · rw [hr] at h
      exact absurd h (by simp)

theorem parse_stmts_greach (root : String) (fs : FS) (cd : String) (o : Opts)
    (fname : String) (fin : Option PyExc) :
    ∀ (fuel : Nat) (toks : List Tok) (ctx : List String) (consume : Bool)
      (fst : FileSt) (gst : GSt),
      GReach root fs gst (out_gst (parse_stmts fs cd o fname fin fuel toks ctx consume fst gst)) := by
  intro fuel
  induction fuel with
  | zero =>
    intro toks ctx consume fst gst
    exact Relation.ReflTransGen.refl
  | succ fuel ih =>
    have ihok : ∀ (tk : List Tok) (cx : List String) (cs : Bool)
        (f0 : FileSt) (g0 : GSt) (p : List Stmt) (r : List Tok) (f1 : FileSt) (g1 : GSt),
        parse_stmts fs cd o fname fin fuel tk cx cs f0 g0 = .ok (p, r, f1, g1) →
        GReach root fs g0 g1 := by
      intro tk cx cs f0 g0 p r f1 g1 h
      have hx := ih tk cx cs f0 g0
      rw [h] at hx
      exact hx
    have iherr : ∀ (tk : List Tok) (cx : List String) (cs : Bool)
        (f0 : FileSt) (g0 : GSt) (e : PyExc) (g1 : GSt),
        parse_stmts fs cd o fname fin fuel tk cx cs f0 g0 = .error (e, g1) →
        GReach root fs g0 g1 := by
      intro tk cx cs f0 g0 e g1 h
      have hx := ih tk cx cs f0 g0
      rw [h] at hx
      exact hx
    intro toks ctx consume fst gst
    match toks with
    | [] =>
      rcases fin with _ | e <;> exact Relation.ReflTransGen.refl
    | (t, tl, q) :: rest =>
      rw [parse_stmts]
      by_cases h1 : t = rbrace ∧ q = false
      · simp only [h1.1, h1.2]
        rw [if_pos (by simp)]
        exact Relation.ReflTransGen.refl
      · have h1' : ¬ (t = rbrace ∧ ¬ q = true) := by
          intro hcon
          exact h1 ⟨hcon.1, by simpa using hcon.2⟩
        rw [if_neg h1']
        by_cases hc : consume = true
        · rw [if_pos hc]
          by_cases h2 : t = lbrace ∧ q = false
          · rw [if_pos ⟨h2.1, by simp [h2.2]⟩]
            split
            · rename_i eg heq
              obtain ⟨e1, g1⟩ := eg
              exact iherr _ _ _ _ _ _ _ heq
            · rename_i p1 r1 f1 g1 heq
              exact Relation.ReflTransGen.trans (ihok _ _ _ _ _ _ _ _ _ heq) (ih _ _ _ _ _)
          · have h2' : ¬ (t = lbrace ∧ ¬ q = true) := by
              intro hcon
              exact h2 ⟨hcon.1, by simpa using hcon.2⟩
            rw [if_neg h2']
            exact ih _ _ _ _ _
        · rw [if_neg hc]
          by_cases h3 : t.startsWith "#" ∧ q = false
          · rw [if_pos ⟨h3.1, by simp [h3.2]⟩]
            by_cases hcm : o.comments = true
            · rw [if_pos hcm]
              rcases heq : parse_stmts fs cd o fname fin fuel rest ctx consume fst gst with
                ⟨e1, g1⟩ | ⟨p1, r1, f1, g1⟩
              · exact iherr _ _ _ _ _ _ _ heq
              · exact ihok _ _ _ _ _ _ _ _ _ heq
            · rw [if_neg hcm]
              exact ih _ _ _ _ _
          · have h3' : ¬ (t.startsWith "#" = true ∧ ¬ q = true) := by
              intro hcon
              exact h3 ⟨hcon.1, by simpa using hcon.2⟩
            rw [if_neg h3']
            rcases hra : read_args fin rest with e | ⟨args, cmts, ⟨term, tl2, tq⟩, rest1⟩
            · exact Relation.ReflTransGen.refl
            · dsimp only
              by_cases hig : t ∈ o.ignore
              · rw [if_pos hig]
                by_cases h4 : term = lbrace ∧ tq = false
                · rw [if_pos ⟨h4.1, by simp [h4.2]⟩]
                  split
                  · rename_i eg heq
                    obtain ⟨e1, g1⟩ := eg
                    exact iherr _ _ _ _ _ _ _ heq
                  · rename_i p1 r1 f1 g1 heq
                    exact Relation.ReflTransGen.trans (ihok _ _ _ _ _ _ _ _ _ heq) (ih _ _ _ _ _)
                · have h4' : ¬ (term = lbrace ∧ ¬ tq = true) := by
                    intro hcon
                    exact h4 ⟨hcon.1, by simpa using hcon.2⟩
                  rw [if_neg h4']
                  exact ih _ _ _ _ _
              · rw [if_neg hig]
                generalize (if o.combine then some fname else none : Option String) = fopt
                generalize (if t = "if" then prepare_if_args args else args) = args1
                rcases han : analyze fname (Stmt.mk fopt t tl args1 none none none) term ctx
                    o.strict o.check_ctx o.check_args with e | u
                · dsimp only
                  by_cases hce : o.catch_errors = true
                  · rw [if_pos hce]
                    rcases hhe : handle_error fname e fst gst with ⟨fst2, gst2⟩
                    dsimp only
                    rw [handle_error, Prod.mk.injEq] at hhe
                    have hg2 : GReach root fs gst gst2 := by
                      rw [← hhe.2]
                      exact handle_error_g_greach root fs fname gst e
                    by_cases hes : (exc_strerror e).endsWith msg_term_suffix = true
                    · rw [if_pos hes]
                      by_cases h5 : ¬ term = rbrace ∧ tq = false
                      · rw [if_pos ⟨h5.1, by simp [h5.2]⟩]
                        split
                        · rename_i eg heq
                          obtain ⟨e1, g1⟩ := eg
                          exact Relation.ReflTransGen.trans hg2 (iherr _ _ _ _ _ _ _ heq)
                        · rename_i p1 r1 f1 g1 heq
                          exact Relation.ReflTransGen.trans hg2
                            (Relation.ReflTransGen.trans (ihok _ _ _ _ _ _ _ _ _ heq)
                              (ih _ _ _ _ _))
                      · have h5' : ¬ (¬ term = rbrace ∧ ¬ tq = true) := by
                          intro hcon
                          exact h5 ⟨hcon.1, by simpa using hcon.2⟩
                        rw [if_neg h5']
                        exact hg2
                    · rw [if_neg hes]
                      exact Relation.ReflTransGen.trans hg2 (ih _ _ _ _ _)
                  · rw [if_neg hce]
                    exact Relation.ReflTransGen.refl
                · dsimp only
                  by_cases hsi : ¬ o.single = true ∧ t = "include"
                  · rw [if_pos hsi]
                    rcases args1 with _ | ⟨a0, arest⟩
                    · exact Relation.ReflTransGen.refl
                    · dsimp only
                      rcases hres : resolve_include fs cd o fname tl a0 fst gst with
                        ⟨e2, g2⟩ | ⟨fnames, fst2, gst2⟩
                      · exact resolve_greach_err root fs cd o fname tl a0 fst gst e2 g2 hres
                      · dsimp only
                        rcases henq : enqueue_files ctx fnames gst2 with ⟨idxs, gst3⟩
                        dsimp only
                        have hq12 : GReach root fs gst gst3 := by
                          refine Relation.ReflTransGen.trans
                            (resolve_greach_ok root fs cd o fname tl a0 fst gst fnames fst2
                              gst2 hres) ?_
                          have hmem := resolve_fnames_mem fs cd o fname tl a0 fst gst fnames
                            fst2 gst2 hres
                          have henq2 := enqueue_files_greach root fs ctx fnames gst2
                            (fun f hf => Or.inr (hmem f hf))
                          rw [henq] at henq2
                          exact henq2
                        by_cases h6 : term = lbrace ∧ tq = false
                        · rw [if_pos ⟨h6.1, by simp [h6.2]⟩]
                          split
                          · rename_i eg heq
                            obtain ⟨e1, g1⟩ := eg
                            exact Relation.ReflTransGen.trans hq12 (iherr _ _ _ _ _ _ _ heq)
                          · rename_i blk r2 f3 g3 heq
                            split
                            · rename_i eg2 heq2
                              obtain ⟨e2b, g2b⟩ := eg2
                              exact Relation.ReflTransGen.trans hq12
                                (Relation.ReflTransGen.trans (ihok _ _ _ _ _ _ _ _ _ heq)
                                  (iherr _ _ _ _ _ _ _ heq2))
                            · rename_i p2 r3 f4 g4 heq2
                              exact Relation.ReflTransGen.trans hq12
                                (Relation.ReflTransGen.trans (ihok _ _ _ _ _ _ _ _ _ heq)
                                  (ihok _ _ _ _ _ _ _ _ _ heq2))
                        · have h6' : ¬ (term = lbrace ∧ ¬ tq = true) := by
                            intro hcon
                            exact h6 ⟨hcon.1, by simpa using hcon.2⟩
                          rw [if_neg h6']
                          split
                          · rename_i eg heq
                            obtain ⟨e1, g1⟩ := eg
                            exact Relation.ReflTransGen.trans hq12 (iherr _ _ _ _ _ _ _ heq)
                          · rename_i p1 r1 f1 g1 heq
                            exact Relation.ReflTransGen.trans hq12 (ihok _ _ _ _ _ _ _ _ _ heq)
                  · rw [if_neg hsi]
                    dsimp only
                    by_cases h6 : term = lbrace ∧ tq = false
                    · rw [if_pos ⟨h6.1, by simp [h6.2]⟩]
                      split
                      · rename_i eg heq
                        obtain ⟨e1, g1⟩ := eg
                        exact iherr _ _ _ _ _ _ _ heq
                      · rename_i blk r2 f3 g3 heq
                        split
                        · rename_i eg2 heq2
                          obtain ⟨e2b, g2b⟩ := eg2
                          exact Relation.ReflTransGen.trans (ihok _ _ _ _ _ _ _ _ _ heq)
                            (iherr _ _ _ _ _ _ _ heq2)
                        · rename_i p2 r3 f4 g4 heq2
                          exact Relation.ReflTransGen.trans (ihok _ _ _ _ _ _ _ _ _ heq)
                            (ihok _ _ _ _ _ _ _ _ _ heq2)
                    · have h6' : ¬ (term = lbrace ∧ ¬ tq = true) := by
                        intro hcon
                        exact h6 ⟨hcon.1, by simpa using hcon.2⟩
                      rw [if_neg h6']
                      split
                      · rename_i eg heq
                        obtain ⟨e1, g1⟩ := eg
                        exact iherr _ _ _ _ _ _ _ heq
                      · rename_i p1 r1 f1 g1 heq
                        exact ihok _ _ _ _ _ _ _ _ _ heq

/-- Equation-driven form of `parse_stmts_greach` for a normal return. -/
theorem parse_stmts_greach_ok (root : String) (fs : FS) (cd : String) (o : Opts)
    (fname : String) (fin : Option PyExc) (fuel : Nat) (toks : List Tok)
    (ctx : List String) (consume : Bool) (fst : FileSt) (gst : GSt)
    (p : List Stmt) (r : List Tok) (f1 : FileSt) (g1 : GSt)
    (h : parse_stmts fs cd o fname fin fuel toks ctx consume fst gst = .ok (p, r, f1, g1)) :
    GReach root fs gst g1 := by
  have hx := parse_stmts_greach root fs cd o fname fin fuel toks ctx consume fst gst
  rw [h] at hx
  exact hx

/-- Equation-driven form of `parse_stmts_greach` for an exception. -/
theorem parse_stmts_greach_err (root : String) (fs : FS) (cd : String) (o : Opts)
    (fname : String) (fin : Option PyExc) (fuel : Nat) (toks : List Tok)
    (ctx : List String) (consume : Bool) (fst : FileSt) (gst : GSt)
    (e : PyExc) (g1 : GSt)
    (h : parse_stmts fs cd o fname fin fuel toks ctx consume fst gst = .error (e, g1)) :
    GReach root fs gst g1 := by
  have hx := parse_stmts_greach root fs cd o fname fin fuel toks ctx consume fst gst
  rw [h] at hx
  exact hx

/-- The state carried out of a failed `run_file` is reachable. -/
theorem run_file_gst_err (root : String) (fs : FS) (cd : String) (o : Opts)
    (fname : String) (ctx : List String) (gst : GSt) (e : PyExc) (g1 : GSt)
    (h : run_file fs cd o fname ctx gst = .error (e, g1)) : GReach root fs gst g1 := by
  rw [run_file] at h
  split at h
  · simp only [Except.error.injEq, Prod.mk.injEq] at h
    rw [← h.2]
    exact Relation.ReflTransGen.refl
  · rename_i toks fin heq
    split at h
    · rename_i eg heq2
      obtain ⟨e2, g2⟩ := eg
      simp only [Except.error.injEq, Prod.mk.injEq] at h
      rw [← h.2]
      exact parse_stmts_greach_err root fs cd o fname fin _ toks ctx false ⟨"ok", []⟩ gst
        e2 g2 heq2
    · exact absurd h (by simp)

/-- The state carried out of a successful `run_file` is reachable. -/
theorem run_file_gst_ok (root : String) (fs : FS) (cd : String) (o : Opts)
    (fname : String) (ctx : List String) (gst : GSt) (parsed : List Stmt)
    (fstr : FileSt) (g1 : GSt)
    (h : run_file fs cd o fname ctx gst = .ok (parsed, fstr, g1)) : GReach root fs gst g1 := by
  rw [run_file] at h
  split at h
  · exact absurd h (by simp)
  · rename_i toks fin heq
    split at h
    · exact absurd h (by simp)
    · rename_i p r f1 g2 heq2
      simp only [Except.ok.injEq, Prod.mk.injEq] at h
      rw [← h.2.2]
      exact parse_stmts_greach_ok root fs cd o fname fin _ toks ctx false ⟨"ok", []⟩ gst
        p r f1 g2 heq2

/-- One worklist iteration only evolves the global state along primitive
steps. -/
theorem process_file_greach (root : String) (fs : FS) (cd : String) (o : Opts)
    (fname : String) (ctx : List String) (gst : GSt) :
    GReach root fs gst (process_file fs cd o fname ctx gst).2 := by
  rw [process_file]
  rcases hrf : run_file fs cd o fname ctx gst with ⟨e, g1⟩ | ⟨parsed, fstr, g1⟩
  · exact Relation.ReflTransGen.trans (run_file_gst_err root fs cd o fname ctx gst e g1 hrf)
      (handle_error_g_greach root fs fname g1 e)
  · exact run_file_gst_ok root fs cd o fname ctx gst parsed fstr g1 hrf

/-- The `FileParseResult` built by one worklist iteration is keyed by the
file it was asked to parse. -/
theorem process_file_file (fs : FS) (cd : String) (o : Opts) (fname : String)
    (ctx : List String) (gst : GSt) :
    (process_file fs cd o fname ctx gst).1.file = fname := by
  rw [process_file]
  rcases hrf : run_file fs cd o fname ctx gst with ⟨e, g1⟩ | ⟨parsed, fstr, g1⟩ <;> rfl

/-- An exception escaping `run_file` is caught by the worklist iteration
and recorded as a failed result for that file. -/
theorem process_file_err (fs : FS) (cd : String) (o : Opts) (fname : String)
    (ctx : List String) (gst : GSt) (e : PyExc) (g1 : GSt)
    (h : run_file fs cd o fname ctx gst = .error (e, g1)) :
    process_file fs cd o fname ctx gst =
      ({ file := fname, status := "failed",
         errors := [⟨exc_str e, exc_lineno e⟩], parsed := [] },
       handle_error_g fname g1 e) := by
  rw [process_file, h]
  exact rfl

/-- The initial worklist (just the root file) satisfies the invariant. -/
theorem gst_init_wf (root : String) (fs : FS) : g_wf root fs (gst_init root) :=
  ⟨rfl, by simp [gst_init], by intro f hf; simp [gst_init] at hf; exact Or.inl hf⟩

/-- The dedupe invariant bounds the worklist by the file count plus one. -/
theorem wf_includes_le (root : String) (fs : FS) (g : GSt) (hw : g_wf root fs g) :
    g.includes.length ≤ fs.length + 1 := by
  obtain ⟨-, hnd, hmem⟩ := hw
  have hsub : g.includes.map Prod.fst ⊆ root :: fs.map Prod.fst := by
    intro x hx
    rcases hmem x hx with h | h
    · simp [h]
    · simp [h]
  have hle := (List.Nodup.subperm hnd hsub).length_le
  simpa using hle

/-- The worklist drain only evolves the global state along primitive
steps. -/
theorem drain_greach (root : String) (fs : FS) (cd : String) (o : Opts) :
    ∀ (fuel i : Nat) (acc : List FileResult) (gst : GSt),
      GReach root fs gst (drain fs cd o fuel i acc gst).2 := by
  intro fuel
  induction fuel with
  | zero =>
    intro i acc gst
    exact Relation.ReflTransGen.refl
  | succ fuel ih =>
    intro i acc gst
    rw [drain]
    rcases hd : gst.includes.drop i with _ | ⟨⟨fname, ctx⟩, rest⟩
    · exact Relation.ReflTransGen.refl
    · dsimp only
      rcases hp : process_file fs cd o fname ctx gst with ⟨entry, gst2⟩
      have h1 : GReach root fs gst gst2 := by
        have hx := process_file_greach root fs cd o fname ctx gst
        rw [hp] at hx
        exact hx
      exact Relation.ReflTransGen.trans h1 (ih (i + 1) (acc ++ [entry]) gst2)

/-- The main drain induction: starting from a well-formed worklist state
with `i` files already processed into `acc` (one result per worklist
entry, in order) and enough fuel to cover the dedupe bound, the drain
processes every worklist entry, including the ones files enqueue as they
are parsed: the final result list has exactly one entry per worklist
entry, keyed by that entry's path, and the final state is well formed. -/
theorem drain_spec (root : String) (fs : FS) (cd : String) (o : Opts) :
    ∀ (fuel i : Nat) (acc : List FileResult) (gst : GSt),
      g_wf root fs gst →
      acc.length = i →
      i ≤ gst.includes.length →
      fs.length + 1 ≤ i + fuel →
      (∀ j, j < i → (acc.getD j default_fr).file = (gst.includes.getD j ("", [])).1) →
      g_wf root fs (drain fs cd o fuel i acc gst).2 ∧
      (drain fs cd o fuel i acc gst).1.length =
        (drain fs cd o fuel i acc gst).2.includes.length ∧
      (∀ j, j < (drain fs cd o fuel i acc gst).1.length →
        ((drain fs cd o fuel i acc gst).1.getD j default_fr).file =
          ((drain fs cd o fuel i acc gst).2.includes.getD j ("", [])).1) := by
  intro fuel
  induction fuel with
  | zero =>
    intro i acc gst hw hlen hile hfs hcorr
    have hub := wf_includes_le root fs gst hw
    rw [drain]
    dsimp only
    exact ⟨hw, by omega, fun j hj => hcorr j (by omega)⟩
  | succ fuel ih =>
    intro i acc gst hw hlen hile hfs hcorr
    rw [drain]
    rcases hd : gst.includes.drop i with _ | ⟨⟨fname, ctx⟩, rest⟩
    · have hge : gst.includes.length ≤ i := List.drop_eq_nil_iff.mp hd
      dsimp only
      exact ⟨hw, by omega, fun j hj => hcorr j (by omega)⟩
    · dsimp only
      rcases hp : process_file fs cd o fname ctx gst with ⟨entry, gst2⟩
      dsimp only
      have hilt : i < gst.includes.length := by
        by_contra hx
        push_neg at hx
        rw [List.drop_eq_nil_iff.mpr hx] at hd
        exact absurd hd (by simp)
      have hfile : entry.file = fname := by
        have hx := process_file_file fs cd o fname ctx gst
        rw [hp] at hx
        exact hx
      have hreach : GReach root fs gst gst2 := by
        have hx := process_file_greach root fs cd o fname ctx gst
        rw [hp] at hx
        exact hx
      have hw2 : g_wf root fs gst2 := greach_wf root fs gst gst2 hw hreach
      obtain ⟨t, ht⟩ := greach_includes_append root fs gst gst2 hreach
      have hlen2 : gst.includes.length ≤ gst2.includes.length := by
        rw [ht]
        simp
      have hub2 := wf_includes_le root fs gst2 hw2
      have hget : gst.includes[i]? = some (fname, ctx) := by
        have hx := List.getElem?_drop gst.includes i 0
        rw [hd] at hx
        simpa using hx.symm
      have hkey : (gst.includes.getD i ("", [])).1 = fname := by
        rw [List.getD_eq_getElem?_getD, hget]
        rfl
      have hcorr2 : ∀ j, j < i + 1 →
          ((acc ++ [entry]).getD j default_fr).file = (gst2.includes.getD j ("", [])).1 := by
        intro j hj
        have hjg : gst2.includes.getD j ("", []) = gst.includes.getD j ("", []) := by
          rw [ht]
          exact List.getD_append _ _ _ _ (by omega)
        rcases Nat.lt_or_ge j i with hji | hji
        · rw [List.getD_append _ _ _ _ (by omega), hjg]
          exact hcorr j hji
        · have hji' : j = i := by omega
          subst hji'
          rw [List.getD_append_right _ _ _ _ (by omega), hjg, hkey, hlen]
          simpa using hfile
      have hle2 : i + 1 ≤ gst2.includes.length := by omega
      have hfs2 : fs.length + 1 ≤ (i + 1) + fuel := by omega
      have hlen3 : (acc ++ [entry]).length = i + 1 := by simp [hlen]
      exact ih (i + 1) (acc ++ [entry]) gst2 hw2 hlen3 hle2 hfs2 hcorr2

/-- C5: within a run of `parse`, the include worklist only grows — one
registration either leaves it unchanged (dedupe hit) or appends the new
entry at the end — and a path already registered is never enqueued
again: any later registration of it, in any state reachable through the
run's primitive steps, returns the original worklist index and leaves
the state untouched, so every including directive references the file by
the same index. At the run level, the final worklist extends the initial
one, and the drain produces result entries with pairwise-distinct file
names, so a file included two or more times still yields exactly one
`FileResult`. -/
theorem C5_worklist_append_dedupe (fs : FS) (filename : String) (o : Opts) :
    (∀ (fname : String) (ctx : List String) (g : GSt),
      (enqueue_one fname ctx g).2.includes = g.includes ∨
      (enqueue_one fname ctx g).2.includes = g.includes ++ [(fname, ctx)]) ∧
    (∀ (fname : String) (ctx : List String) (g : GSt) (idx : Nat),
      g.included.lookup fname = some idx →
      enqueue_one fname ctx g = (idx, g)) ∧
    (∀ (root : String) (g g' : GSt) (fname : String) (idx : Nat) (ctx' : List String),
      GReach root fs g g' → g.included.lookup fname = some idx →
      enqueue_one fname ctx' g' = (idx, g')) ∧
    (∃ t, (drain fs (py_dirname filename) o (fs.length + 1) 0 []
        (gst_init filename)).2.includes = (gst_init filename).includes ++ t) ∧
    ((drain fs (py_dirname filename) o (fs.length + 1) 0 []
        (gst_init filename)).1.map FileResult.file).Nodup := by
  have hspec := drain_spec filename fs (py_dirname filename) o (fs.length + 1) 0 []
    (gst_init filename) (gst_init_wf filename fs) rfl (Nat.zero_le _) (by omega)
    (fun j hj => absurd hj (by omega))
  refine ⟨?_, ?_, ?_, ?_, ?_⟩
  · intro fname ctx g
    rcases hl : g.included.lookup fname with _ | idx
    · exact Or.inr (by simp [enqueue_one, hl])
    · exact Or.inl (by simp [enqueue_one, hl])
  · intro fname ctx g idx h
    simp [enqueue_one, h]
  · intro root g g' fname idx ctx' hreach h
    have h2 := greach_lookup_stable root fs g g' hreach fname idx h
    simp [enqueue_one, h2]
  · exact greach_includes_append filename fs _ _
      (drain_greach filename fs (py_dirname filename) o (fs.length + 1) 0 [] (gst_init filename))
  · obtain ⟨hw, hlen, hcorr⟩ := hspec
    have hmapeq : (drain fs (py_dirname filename) o (fs.length + 1) 0 []
          (gst_init filename)).1.map FileResult.file =
        (drain fs (py_dirname filename) o (fs.length + 1) 0 []
          (gst_init filename)).2.includes.map Prod.fst := by
      apply List.ext_getElem
      · simpa using hlen
      · intro j h1 h2
        simp only [List.getElem_map]
        have hc := hcorr j (by simpa using h1)
        rw [List.getD_eq_getElem?_getD, List.getD_eq_getElem?_getD,
          List.getElem?_eq_getElem (by simpa using h1),
          List.getElem?_eq_getElem (by simpa using h2)] at hc
        simpa using hc
    rw [hmapeq]
    exact hw.2.1

/-- Witness for C5 at a concrete state: registering the root path again
in the initial state is a no-op returning index 0, whether immediately
or across an (empty) run of steps. -/
theorem C5_worklist_append_dedupe_witness :
    enqueue_one "a" [] (gst_init "a") = (0, gst_init "a") ∧
    enqueue_one "a" ["http"] (gst_init "a") = (0, gst_init "a") :=
  ⟨(C5_worklist_append_dedupe [] "a" {}).2.1 "a" [] (gst_init "a") 0 (by decide),
   (C5_worklist_append_dedupe [] "a" {}).2.2.1 "a" (gst_init "a") (gst_init "a") "a" 0
     ["http"] Relation.ReflTransGen.refl (by decide)⟩

/-- On the cyclic one-file include graph (a file that includes itself,
dedupe-mapped back to worklist index 0), the combine inlining pass
exhausts every recursion budget: each unfolding re-enters the same
statement list, so the source's `_perform_includes` recursion is
unbounded and `RecursionError` is what any finite interpreter stack
produces. -/
theorem perform_includes_ex_cycle :
    ∀ fuel, perform_includes_ex
      [FileResult.mk "/d/a.conf" "ok" []
        [Stmt.mk (some "/d/a.conf") "include" 1 ["a.conf"] none (some [0]) none]]
      fuel
      [Stmt.mk (some "/d/a.conf") "include" 1 ["a.conf"] none (some [0]) none] =
      .error .recursionError := by
  intro fuel
  induction fuel with
  | zero => rfl
  | succ fuel ih =>
    rw [perform_includes_ex]
    simp only [List.foldl, Stmt.block, Stmt.includes, List.getD_cons_zero]
    rw [ih]

/-- C10 (counterexample): with `combine = true`, a self-including root
file makes the combine step's include-inlining recursion re-enter the
same worklist entry forever: no recursion budget suffices, and the
resulting `RecursionError` is raised after the worklist loop's per-file
`try`, so it escapes `parse` to the caller. -/
theorem C10_counterexample :
    parse_budget [("/d/a.conf", "include a.conf;\n")] "/d/a.conf" { combine := true } =
      fun _ => .error .recursionError := by
  funext budget
  have h0 : parse_budget [("/d/a.conf", "include a.conf;\n")] "/d/a.conf"
      { combine := true } budget =
      combine_parsed_configs_ex budget
        (Payload.mk "ok" []
          [FileResult.mk "/d/a.conf" "ok" []
            [Stmt.mk (some "/d/a.conf") "include" 1 ["a.conf"] none (some [0]) none]]) := by
    with_unfolding_all rfl
  rw [h0]
  simp only [combine_parsed_configs_ex, List.headD]
  rw [perform_includes_ex_cycle budget]

/-- C10 (amended): the worklist loop contains per-file failures — an
exception escaping `run_file` (lexing or parsing one file, under any
option combination, including raise mode `catch_errors = false`) is
caught by the iteration, which records a failed `FileResult` carrying
that error for that file and pushes the error onto the payload — and
the drain still produces exactly one result per worklist entry, keyed
by that entry's path, so remaining files are processed. Without
combining, `parse` returns a payload and no exception escapes: its
`config` is exactly the drain's result list, and the
exception-transparent model `parse_budget` returns that same payload
normally for every budget. (With `combine = true` the guarantee fails
on cyclic include graphs: see the counterexample.) -/
theorem C10_amended_exception_containment (fs : FS) (filename : String) (o : Opts) :
    (∀ (cd fname : String) (ctx : List String) (gst : GSt) (e : PyExc) (g1 : GSt),
      run_file fs cd o fname ctx gst = .error (e, g1) →
      process_file fs cd o fname ctx gst =
        ({ file := fname, status := "failed",
           errors := [⟨exc_str e, exc_lineno e⟩], parsed := [] },
         handle_error_g fname g1 e)) ∧
    (drain fs (py_dirname filename) o (fs.length + 1) 0 [] (gst_init filename)).1.length =
      (drain fs (py_dirname filename) o (fs.length + 1) 0 []
        (gst_init filename)).2.includes.length ∧
    (∀ j, j < (drain fs (py_dirname filename) o (fs.length + 1) 0 []
        (gst_init filename)).1.length →
      ((drain fs (py_dirname filename) o (fs.length + 1) 0 []
          (gst_init filename)).1.getD j default_fr).file =
        ((drain fs (py_dirname filename) o (fs.length + 1) 0 []
          (gst_init filename)).2.includes.getD j ("", [])).1) ∧
    (o.combine = false →
      (parse fs filename o).config =
        (drain fs (py_dirname filename) o (fs.length + 1) 0 [] (gst_init filename)).1) ∧
    (∀ budget : Nat, o.combine = false →
      parse_budget fs filename o budget = .ok (parse fs filename o)) := by
  have hspec := drain_spec filename fs (py_dirname filename) o (fs.length + 1) 0 []
    (gst_init filename) (gst_init_wf filename fs) rfl (Nat.zero_le _) (by omega)
    (fun j hj => absurd hj (by omega))
  refine ⟨fun cd fname ctx gst e g1 h => process_file_err fs cd o fname ctx gst e g1 h,
    hspec.2.1, hspec.2.2, ?_, ?_⟩
  · intro hcomb
    simp only [parse, hcomb]
    rfl
  · intro budget hcomb
    simp only [parse_budget, parse, hcomb]
    rfl

/-- Witness for the amended C10: a root file whose single directive has
no terminator makes `run_file` raise `StopIteration`; the worklist
iteration catches it and returns the failed result for that file. -/
theorem C10_amended_exception_containment_witness :
    process_file [("/a.conf", "foo\n")] "/" {} "/a.conf" [] (gst_init "/a.conf") =
      ({ file := "/a.conf", status := "failed",
         errors := [⟨exc_str .stopIteration, exc_lineno .stopIteration⟩], parsed := [] },
       handle_error_g "/a.conf" (gst_init "/a.conf") .stopIteration) :=
  (C10_amended_exception_containment [("/a.conf", "foo\n")] "/a.conf" {}).1 "/" "/a.conf" []
    (gst_init "/a.conf") .stopIteration (gst_init "/a.conf") (by with_unfolding_all rfl)

/-- `read_args` consumes at least the terminator token. -/
theorem read_args_len (fin : Option PyExc) :
    ∀ (toks : List Tok) (args cmts : List String) (t : Tok) (rest1 : List Tok),
      read_args fin toks = .ok (args, cmts, t, rest1) → rest1.length < toks.length := by
  intro toks
  induction toks with
  | nil =>
    intro args cmts t rest1 h
    rw [read_args.eq_def] at h
    exact absurd h (by simp)
  | cons p rest ih =>
    obtain ⟨token, l, quoted⟩ := p
    intro args cmts t rest1 h
    rw [read_args.eq_def] at h
    dsimp only at h
    by_cases hc : (token ≠ lbrace ∧ token ≠ ";" ∧ token ≠ rbrace) ∨ quoted = true
    · rw [if_pos hc] at h
      split at h
      · exact absurd h (by simp)
      · rename_i args2 cmts2 t2 r2 heq
        have hr2 := ih args2 cmts2 t2 r2 heq
        split at h <;>
        · simp only [Except.ok.injEq, Prod.mk.injEq] at h
          obtain ⟨-, -, -, h4⟩ := h
          rw [← h4]
          simp only [List.length_cons]
          omega
    · rw [if_neg hc] at h
      simp only [Except.ok.injEq, Prod.mk.injEq] at h
      obtain ⟨-, -, -, h4⟩ := h
      rw [← h4]
      simp

/-- Worklist registration of a batch: the payload fields are untouched
and the worklist gains only entries for the registered paths under the
registering context. -/
theorem enqueue_files_spec (ctx : List String) :
    ∀ (fnames : List String) (g : GSt),
      (enqueue_files ctx fnames g).2.p_status = g.p_status ∧
      (enqueue_files ctx fnames g).2.p_errors = g.p_errors ∧
      ∃ t, (enqueue_files ctx fnames g).2.includes = g.includes ++ t ∧
        ∀ pr ∈ t, pr ∈ fnames.map (fun f => (f, ctx)) := by
  intro fnames
  induction fnames with
  | nil =>
    intro g
    exact ⟨rfl, rfl, [], by simp [enqueue_files], by simp⟩
  | cons f rest ih =>
    intro g
    rw [enqueue_files]
    obtain ⟨ih1, ih2, t2, ih3, ih4⟩ := ih (enqueue_one f ctx g).2
    rcases hl : g.included.lookup f with _ | idx
    · have h1 : (enqueue_one f ctx g).2 =
          { g with included := g.included ++ [(f, g.includes.length)],
                   includes := g.includes ++ [(f, ctx)] } := by
        simp [enqueue_one, hl]
      refine ⟨by rw [ih1, h1], by rw [ih2, h1], [(f, ctx)] ++ t2, ?_, ?_⟩
      · rw [ih3, h1, List.append_assoc]
      · intro pr hpr
        rcases List.mem_append.mp hpr with h2 | h2
        · simp at h2
          simp [h2]
        · have := ih4 pr h2
          simp at this ⊢
          tauto
    · have h1 : (enqueue_one f ctx g).2 = g := by
        simp [enqueue_one, hl]
      refine ⟨by rw [ih1, h1], by rw [ih2, h1], t2, by rw [ih3, h1], ?_⟩
      intro pr hpr
      have := ih4 pr hpr
      simp at this ⊢
      tauto

/-- A successful well-formedness pass never lengthens the unconsumed
stream. -/
theorem wf_stmts_rest_le (fs : FS) (cd : String) (o : Opts) (fname : String) :
    ∀ (fuel : Nat) (toks : List Tok) (ctx : List String)
      (prs : List (String × List String)) (rest' : List Tok),
      wf_stmts fs cd o fname fuel toks ctx = some (prs, rest') →
      rest'.length ≤ toks.length := by
  intro fuel
  induction fuel with
  | zero =>
    intro toks ctx prs rest' h
    rw [wf_stmts] at h
    exact absurd h (by simp)
  | succ fuel ih =>
    intro toks ctx prs rest' h
    rcases toks with _ | ⟨⟨t0, l0, q0⟩, rest⟩
    · rw [wf_stmts] at h
      have h2 : (some (([] : List (String × List String)), ([] : List Tok)) :
          Option (List (String × List String) × List Tok)) = some (prs, rest') := h
      simp only [Option.some.injEq, Prod.mk.injEq] at h2
      rw [← h2.2]
    · rw [wf_stmts] at h
      dsimp only at h
      by_cases h1 : t0 = rbrace ∧ q0 = false
      · rw [if_pos ⟨h1.1, by simp [h1.2]⟩] at h
        have h2 : (some (([] : List (String × List String)), rest) :
            Option (List (String × List String) × List Tok)) = some (prs, rest') := h
        simp only [Option.some.injEq, Prod.mk.injEq] at h2
        rw [← h2.2]
        simp
      · have h1' : ¬ (t0 = rbrace ∧ ¬ q0 = true) := fun hcon => h1 ⟨hcon.1, by simpa using hcon.2⟩
        rw [if_neg h1'] at h
        by_cases h3 : t0.startsWith "#" ∧ q0 = false
        · rw [if_pos ⟨h3.1, by simp [h3.2]⟩] at h
          have := ih rest ctx prs rest' h
          simp only [List.length_cons]
          omega
        · have h3' : ¬ (t0.startsWith "#" = true ∧ ¬ q0 = true) :=
            fun hcon => h3 ⟨hcon.1, by simpa using hcon.2⟩
          rw [if_neg h3'] at h
          split at h
          · exact absurd h (by simp)
          · rename_i args cmts term tl2 tq rest1 heqra
            have hra := read_args_len none rest args cmts (term, tl2, tq) rest1 heqra
            by_cases hig : t0 ∈ o.ignore
            · rw [if_pos hig] at h
              by_cases h4 : term = lbrace ∧ tq = false
              · rw [if_pos ⟨h4.1, by simp [h4.2]⟩] at h
                have hr := ih (skip_consume fuel rest1) ctx prs rest' h
                have hs := skip_consume_le fuel rest1
                simp only [List.length_cons]
                omega
              · have h4' : ¬ (term = lbrace ∧ ¬ tq = true) :=
                  fun hcon => h4 ⟨hcon.1, by simpa using hcon.2⟩
                rw [if_neg h4'] at h
                have hr := ih rest1 ctx prs rest' h
                simp only [List.length_cons]
                omega
            · rw [if_neg hig] at h
              split at h
              · exact absurd h (by simp)
              · rename_i u heqan
                split at h
                · exact absurd h (by simp)
                · rename_i prs0 heqincl
                  by_cases h6 : term = lbrace ∧ tq = false
                  · rw [if_pos ⟨h6.1, by simp [h6.2]⟩] at h
                    split at h
                    · exact absurd h (by simp)
                    · rename_i pr2 rest2 heqw2
                      split at h
                      · exact absurd h (by simp)
                      · rename_i pr3 rest3 heqw3
                        have e2 := ih rest1 _ pr2 rest2 heqw2
                        have e3 := ih rest2 ctx pr3 rest3 heqw3
                        have h2 : (some (prs0 ++ pr2 ++ pr3, rest3) :
                            Option (List (String × List String) × List Tok)) =
                            some (prs, rest') := h
                        simp only [Option.some.injEq, Prod.mk.injEq] at h2
                        rw [← h2.2]
                        simp only [List.length_cons]
                        omega
                  · have h6' : ¬ (term = lbrace ∧ ¬ tq = true) :=
                      fun hcon => h6 ⟨hcon.1, by simpa using hcon.2⟩
                    rw [if_neg h6'] at h
                    split at h
                    · exact absurd h (by simp)
                    · rename_i pr3 rest3 heqw3
                      have e3 := ih rest1 ctx pr3 rest3 heqw3
                      have h2 : (some (prs0 ++ pr3, rest3) :
                          Option (List (String × List String) × List Tok)) =
                          some (prs, rest') := h
                      simp only [Option.some.injEq, Prod.mk.injEq] at h2
                      rw [← h2.2]
                      simp only [List.length_cons]
                      omega

/-- A statement stream that passes the well-formedness checker parses
cleanly: `_parse` returns normally, consumes the same tokens, leaves the
file state untouched, preserves the payload status and error list, and
extends the worklist only with entries the checker predicted. -/
theorem wf_stmts_parse (fs : FS) (cd : String) (o : Opts) (fname : String) :
    ∀ (fuel : Nat) (toks : List Tok) (ctx : List String)
      (prs : List (String × List String)) (rest' : List Tok),
      toks.length < fuel →
      wf_stmts fs cd o fname fuel toks ctx = some (prs, rest') →
      ∀ (fst : FileSt) (gst : GSt), ∃ (p : List Stmt) (gst' : GSt),
        parse_stmts fs cd o fname none fuel toks ctx false fst gst =
          .ok (p, rest', fst, gst') ∧
        gst'.p_status = gst.p_status ∧ gst'.p_errors = gst.p_errors ∧
        ∃ t, gst'.includes = gst.includes ++ t ∧ ∀ pr ∈ t, pr ∈ prs := by
  intro fuel
  induction fuel with
  | zero =>
    intro toks ctx prs rest' hfl
    omega
  | succ fuel ih =>
    intro toks ctx prs rest' hfl h fst gst
    rcases toks with _ | ⟨⟨t0, l0, q0⟩, rest⟩
    · rw [wf_stmts] at h
      have h2 : (some (([] : List (String × List String)), ([] : List Tok)) :
          Option (List (String × List String) × List Tok)) = some (prs, rest') := h
      simp only [Option.some.injEq, Prod.mk.injEq] at h2
      refine ⟨[], gst, ?_, rfl, rfl, [], by simp, by simp⟩
      rw [← h2.2]
      rfl
    · rw [wf_stmts] at h
      dsimp only at h
      rw [parse_stmts]
      by_cases h1 : t0 = rbrace ∧ q0 = false
      · rw [if_pos ⟨h1.1, by simp [h1.2]⟩] at h
        have h2 : (some (([] : List (String × List String)), rest) :
            Option (List (String × List String) × List Tok)) = some (prs, rest') := h
        simp only [Option.some.injEq, Prod.mk.injEq] at h2
        simp only [h1.1, h1.2]
        rw [if_pos (by simp)]
        refine ⟨[], gst, ?_, rfl, rfl, [], by simp, by simp⟩
        rw [← h2.2]
      · have h1' : ¬ (t0 = rbrace ∧ ¬ q0 = true) := fun hcon => h1 ⟨hcon.1, by simpa using hcon.2⟩
        rw [if_neg h1'] at h ⊢
        rw [if_neg (by simp : ¬ (false = true))]
        by_cases h3 : t0.startsWith "#" ∧ q0 = false
        · rw [if_pos ⟨h3.1, by simp [h3.2]⟩] at h ⊢
          have hlt : rest.length < fuel := by
            simp only [List.length_cons] at hfl
            omega
          obtain ⟨p2, g2, hpeq, hst, herr, t2, hinc, hmem⟩ :=
            ih rest ctx prs rest' hlt h fst gst
          by_cases hcm : o.comments = true
          · rw [if_pos hcm, hpeq]
            exact ⟨_, g2, rfl, hst, herr, t2, hinc, hmem⟩
          · rw [if_neg hcm, hpeq]
            exact ⟨p2, g2, rfl, hst, herr, t2, hinc, hmem⟩
        · have h3' : ¬ (t0.startsWith "#" = true ∧ ¬ q0 = true) :=
            fun hcon => h3 ⟨hcon.1, by simpa using hcon.2⟩
          rw [if_neg h3'] at h ⊢
          split at h
          · exact absurd h (by simp)
          · rename_i args cmts term tl2 tq rest1 heqra
            have hra := read_args_len none rest args cmts (term, tl2, tq) rest1 heqra
            have hlt1 : rest1.length < fuel := by
              simp only [List.length_cons] at hfl
              omega
            dsimp only
            by_cases hig : t0 ∈ o.ignore
            · rw [if_pos hig] at h ⊢
              by_cases h4 : term = lbrace ∧ tq = false
              · rw [if_pos ⟨h4.1, by simp [h4.2]⟩] at h ⊢
                rw [parse_stmts_consume fs cd o fname fuel rest1 [] fst gst hlt1]
                dsimp only
                have hlt2 : (skip_consume fuel rest1).length < fuel := by
                  have := skip_consume_le fuel rest1
                  omega
                obtain ⟨p2, g2, hpeq, hst, herr, t2, hinc, hmem⟩ :=
                  ih (skip_consume fuel rest1) ctx prs rest' hlt2 h fst gst
                rw [hpeq]
                exact ⟨p2, g2, rfl, hst, herr, t2, hinc, hmem⟩
              · have h4' : ¬ (term = lbrace ∧ ¬ tq = true) :=
                  fun hcon => h4 ⟨hcon.1, by simpa using hcon.2⟩
                rw [if_neg h4'] at h ⊢
                obtain ⟨p2, g2, hpeq, hst, herr, t2, hinc, hmem⟩ :=
                  ih rest1 ctx prs rest' hlt1 h fst gst
                rw [hpeq]
                exact ⟨p2, g2, rfl, hst, herr, t2, hinc, hmem⟩
            · rw [if_neg hig] at h ⊢
              split at h
              · exact absurd h (by simp)
              · rename_i u heqan
                by_cases hsi : ¬ o.single = true ∧ t0 = "include"
                · rw [if_pos hsi] at h ⊢
                  rcases ha1 : (if t0 = "if" then prepare_if_args args else args) with
                    _ | ⟨a0, arest⟩
                  · rw [ha1] at h
                    exact absurd (show (none : Option (List (String × List String) × List Tok))
                      = some (prs, rest') from h) (by simp)
                  · rw [ha1] at h
                    dsimp only at h
                    dsimp only
                    by_cases hmag : has_magic (if py_isabs a0 then a0 else py_join cd a0) = true
                    · rw [if_pos hmag] at h
                      have hres : resolve_include fs cd o fname l0 a0 fst gst =
                          .ok (str_sort (glob_glob fs
                            (if py_isabs a0 then a0 else py_join cd a0)), fst, gst) := by
                        simp only [resolve_include]
                        rw [if_pos hmag]
                      dsimp only at h
                      rw [hres]
                      dsimp only
                      obtain ⟨he1, he2, te, he3, he4⟩ := enqueue_files_spec ctx
                        (str_sort (glob_glob fs (if py_isabs a0 then a0 else py_join cd a0))) gst
                      by_cases h6 : term = lbrace ∧ tq = false
                      · rw [if_pos ⟨h6.1, by simp [h6.2]⟩] at h ⊢
                        split at h
                        · exact absurd h (by simp)
                        · rename_i pr2 rest2 heqw2
                          split at h
                          · exact absurd h (by simp)
                          · rename_i pr3 rest3 heqw3
                            simp only [Option.some.injEq, Prod.mk.injEq] at h
                            obtain ⟨hpr, hrest⟩ := h
                            obtain ⟨p2, g2, hpeq2, hst2, herr2, t2, hinc2, hmem2⟩ :=
                              ih rest1 (enter_block_ctx (Stmt.mk
                                  (if o.combine then some fname else none) t0 l0 (a0 :: arest)
                                  none none none) ctx) pr2 rest2 hlt1 heqw2 fst
                                (enqueue_files ctx (str_sort (glob_glob fs
                                  (if py_isabs a0 then a0 else py_join cd a0))) gst).2
                            have hlt2 : rest2.length < fuel := by
                              have := wf_stmts_rest_le fs cd o fname fuel rest1 _ pr2 rest2 heqw2
                              omega
                            obtain ⟨p3, g3, hpeq3, hst3, herr3, t3, hinc3, hmem3⟩ :=
                              ih rest2 ctx pr3 rest3 hlt2 heqw3 fst g2
                            rw [hpeq2]
                            dsimp only
                            rw [hpeq3, hrest]
                            refine ⟨_, g3, rfl, ?_, ?_, te ++ t2 ++ t3, ?_, ?_⟩
                            · rw [hst3, hst2, he1]
                            · rw [herr3, herr2, he2]
                            · rw [hinc3, hinc2, he3]
                              simp [List.append_assoc]
                            · intro pr hpr2
                              rw [← hpr]
                              simp only [List.mem_append] at hpr2 ⊢
                              rcases hpr2 with (hx | hx) | hx
                              · exact Or.inl (Or.inl (he4 pr hx))
                              · exact Or.inl (Or.inr (hmem2 pr hx))
                              · exact Or.inr (hmem3 pr hx)
                      · have h6' : ¬ (term = lbrace ∧ ¬ tq = true) :=
                          fun hcon => h6 ⟨hcon.1, by simpa using hcon.2⟩
                        rw [if_neg h6'] at h ⊢
                        split at h
                        · exact absurd h (by simp)
                        · rename_i pr3 rest3 heqw3
                          simp only [Option.some.injEq, Prod.mk.injEq] at h
                          obtain ⟨hpr, hrest⟩ := h
                          obtain ⟨p3, g3, hpeq3, hst3, herr3, t3, hinc3, hmem3⟩ :=
                            ih rest1 ctx pr3 rest3 hlt1 heqw3 fst
                              (enqueue_files ctx (str_sort (glob_glob fs
                                (if py_isabs a0 then a0 else py_join cd a0))) gst).2
                          rw [hpeq3, hrest]
                          refine ⟨_, g3, rfl, ?_, ?_, te ++ t3, ?_, ?_⟩
                          · rw [hst3, he1]
                          · rw [herr3, he2]
                          · rw [hinc3, he3]
                            simp [List.append_assoc]
                          · intro pr hpr2
                            rw [← hpr]
                            simp only [List.mem_append] at hpr2 ⊢
                            rcases hpr2 with hx | hx
                            · exact Or.inl (he4 pr hx)
                            · exact Or.inr (hmem3 pr hx)
                    · rw [if_neg hmag] at h
                      by_cases hread : (fs_read fs
                          (if py_isabs a0 then a0 else py_join cd a0)).isSome = true
                      · rw [if_pos hread] at h
                        dsimp only at h
                        obtain ⟨c0, hc0⟩ := Option.isSome_iff_exists.mp hread
                        have hres : resolve_include fs cd o fname l0 a0 fst gst =
                            .ok ([if py_isabs a0 then a0 else py_join cd a0], fst, gst) := by
                          simp only [resolve_include]
                          rw [if_neg hmag, hc0]
                        rw [hres]
                        dsimp only
                        obtain ⟨he1, he2, te, he3, he4⟩ := enqueue_files_spec ctx
                          [if py_isabs a0 then a0 else py_join cd a0] gst
                        by_cases h6 : term = lbrace ∧ tq = false
                        · rw [if_pos ⟨h6.1, by simp [h6.2]⟩] at h ⊢
                          split at h
                          · exact absurd h (by simp)
                          · rename_i pr2 rest2 heqw2
                            split at h
                            · exact absurd h (by simp)
                            · rename_i pr3 rest3 heqw3
                              simp only [Option.some.injEq, Prod.mk.injEq] at h
                              obtain ⟨hpr, hrest⟩ := h
                              obtain ⟨p2, g2, hpeq2, hst2, herr2, t2, hinc2, hmem2⟩ :=
                                ih rest1 (enter_block_ctx (Stmt.mk
                                    (if o.combine then some fname else none) t0 l0 (a0 :: arest)
                                    none none none) ctx) pr2 rest2 hlt1 heqw2 fst
                                  (enqueue_files ctx
                                    [if py_isabs a0 then a0 else py_join cd a0] gst).2
                              have hlt2 : rest2.length < fuel := by
                                have := wf_stmts_rest_le fs cd o fname fuel rest1 _ pr2 rest2 heqw2
                                omega
                              obtain ⟨p3, g3, hpeq3, hst3, herr3, t3, hinc3, hmem3⟩ :=
                                ih rest2 ctx pr3 rest3 hlt2 heqw3 fst g2
                              rw [hpeq2]
                              dsimp only
                              rw [hpeq3, hrest]
                              refine ⟨_, g3, rfl, ?_, ?_, te ++ t2 ++ t3, ?_, ?_⟩
                              · rw [hst3, hst2, he1]
                              · rw [herr3, herr2, he2]
                              · rw [hinc3, hinc2, he3]
                                simp [List.append_assoc]
                              · intro pr hpr2
                                rw [← hpr]
                                simp only [List.mem_append] at hpr2 ⊢
                                rcases hpr2 with (hx | hx) | hx
                                · have := he4 pr hx
                                  simp only [List.map_cons, List.map_nil,
                                    List.mem_singleton] at this
                                  exact Or.inl (Or.inl (by simp [this]))
                                · exact Or.inl (Or.inr (hmem2 pr hx))
                                · exact Or.inr (hmem3 pr hx)
                        · have h6' : ¬ (term = lbrace ∧ ¬ tq = true) :=
                            fun hcon => h6 ⟨hcon.1, by simpa using hcon.2⟩
                          rw [if_neg h6'] at h ⊢
                          split at h
                          · exact absurd h (by simp)
                          · rename_i pr3 rest3 heqw3
                            simp only [Option.some.injEq, Prod.mk.injEq] at h
                            obtain ⟨hpr, hrest⟩ := h
                            obtain ⟨p3, g3, hpeq3, hst3, herr3, t3, hinc3, hmem3⟩ :=
                              ih rest1 ctx pr3 rest3 hlt1 heqw3 fst
                                (enqueue_files ctx
                                  [if py_isabs a0 then a0 else py_join cd a0] gst).2
                            rw [hpeq3, hrest]
                            refine ⟨_, g3, rfl, ?_, ?_, te ++ t3, ?_, ?_⟩
                            · rw [hst3, he1]
                            · rw [herr3, he2]
                            · rw [hinc3, he3]
                              simp [List.append_assoc]
                            · intro pr hpr2
                              rw [← hpr]
                              simp only [List.mem_append] at hpr2 ⊢
                              rcases hpr2 with hx | hx
                              · have := he4 pr hx
                                simp only [List.map_cons, List.map_nil,
                                  List.mem_singleton] at this
                                exact Or.inl (by simp [this])
                              · exact Or.inr (hmem3 pr hx)
                      · rw [if_neg hread] at h
                        exact absurd (show (none :
                          Option (List (String × List String) × List Tok))
                          = some (prs, rest') from h) (by simp)
                · rw [if_neg hsi] at h ⊢
                  dsimp only at h ⊢
                  by_cases h6 : term = lbrace ∧ tq = false
                  · rw [if_pos ⟨h6.1, by simp [h6.2]⟩] at h ⊢
                    split at h
                    · exact absurd h (by simp)
                    · rename_i pr2 rest2 heqw2
                      split at h
                      · exact absurd h (by simp)
                      · rename_i pr3 rest3 heqw3
                        simp only [Option.some.injEq, Prod.mk.injEq] at h
                        obtain ⟨hpr, hrest⟩ := h
                        obtain ⟨p2, g2, hpeq2, hst2, herr2, t2, hinc2, hmem2⟩ :=
                          ih rest1 (enter_block_ctx (Stmt.mk
                              (if o.combine then some fname else none) t0 l0
                              (if t0 = "if" then prepare_if_args args else args)
                              none none none) ctx) pr2 rest2 hlt1 heqw2 fst gst
                        have hlt2 : rest2.length < fuel := by
                          have := wf_stmts_rest_le fs cd o fname fuel rest1 _ pr2 rest2 heqw2
                          omega
                        obtain ⟨p3, g3, hpeq3, hst3, herr3, t3, hinc3, hmem3⟩ :=
                          ih rest2 ctx pr3 rest3 hlt2 heqw3 fst g2
                        rw [hpeq2]
                        dsimp only
                        rw [hpeq3, hrest]
                        refine ⟨_, g3, rfl, ?_, ?_, t2 ++ t3, ?_, ?_⟩
                        · rw [hst3, hst2]
                        · rw [herr3, herr2]
                        · rw [hinc3, hinc2]
                          simp [List.append_assoc]
                        · intro pr hpr2
                          rw [← hpr]
                          simp only [List.mem_append] at hpr2 ⊢
                          rcases hpr2 with hx | hx
                          · exact Or.inl (Or.inr (hmem2 pr hx))
                          · exact Or.inr (hmem3 pr hx)
                  · have h6' : ¬ (term = lbrace ∧ ¬ tq = true) :=
                      fun hcon => h6 ⟨hcon.1, by simpa using hcon.2⟩
                    rw [if_neg h6'] at h ⊢
                    split at h
                    · exact absurd h (by simp)
                    · rename_i pr3 rest3 heqw3
                      simp only [Option.some.injEq, Prod.mk.injEq] at h
                      obtain ⟨hpr, hrest⟩ := h
                      obtain ⟨p3, g3, hpeq3, hst3, herr3, t3, hinc3, hmem3⟩ :=
                        ih rest1 ctx pr3 rest3 hlt1 heqw3 fst gst
                      rw [hpeq3, hrest]
                      refine ⟨_, g3, rfl, hst3, herr3, t3, hinc3, ?_⟩
                      intro pr hpr2
                      rw [← hpr]
                      simp only [List.mem_append]
                      exact Or.inr (hmem3 pr hpr2)

/-- A well-formed file parses cleanly at the file level: `run_file`
returns normally with an untouched "ok" file state, preserves the
payload fields, and enqueues only paths the checker proved well formed
one level deeper. -/
theorem run_file_wf (fs : FS) (cd : String) (o : Opts) (fname : String)
    (ctx : List String) (gst : GSt) (n : Nat)
    (hwf : wf_include fs cd o (n + 1) fname ctx = true) :
    ∃ (p : List Stmt) (gst' : GSt) (prs : List (String × List String)),
      run_file fs cd o fname ctx gst = .ok (p, ⟨"ok", []⟩, gst') ∧
      gst'.p_status = gst.p_status ∧ gst'.p_errors = gst.p_errors ∧
      (∃ t, gst'.includes = gst.includes ++ t ∧ ∀ pr ∈ t, pr ∈ prs) ∧
      prs.all (fun pr => wf_include fs cd o n pr.1 pr.2) = true := by
  rw [wf_include] at hwf
  split at hwf
  · exact absurd hwf (by simp)
  · rename_i content hread
    split at hwf
    · rename_i toks hbal
      split at hwf
      · exact absurd hwf (by simp)
      · rename_i prs rest0 heqw
        have hlex : lex_toks fs fname = .ok (toks, none) := by
          rw [lex_toks, hread]
          dsimp only
          rw [hbal]
        obtain ⟨p, gst', hpeq, hst, herr, t, hinc, hmem⟩ :=
          wf_stmts_parse fs cd o fname (toks.length + 1) toks ctx prs rest0 (by omega)
            heqw ⟨"ok", []⟩ gst
        refine ⟨p, gst', prs, ?_, hst, herr, ⟨t, hinc, hmem⟩, hwf⟩
        rw [run_file, hlex]
        dsimp only
        rw [hpeq]
    · exact absurd hwf (by simp)

/-- The drain induction for clean runs: when every pending worklist
entry is well formed (at some include depth), the payload status and
error list survive the whole drain untouched. -/
theorem drain_wf_clean (fs : FS) (root : String) (cd : String) (o : Opts) :
    ∀ (fuel i : Nat) (acc : List FileResult) (gst : GSt),
      g_wf root fs gst →
      gst.p_status = "ok" → gst.p_errors = [] →
      (∀ pr ∈ gst.includes.drop i, ∃ n, wf_include fs cd o n pr.1 pr.2 = true) →
      fs.length + 1 ≤ i + fuel →
      (drain fs cd o fuel i acc gst).2.p_status = "ok" ∧
      (drain fs cd o fuel i acc gst).2.p_errors = [] := by
  intro fuel
  induction fuel with
  | zero =>
    intro i acc gst hw hst herr hincl hfs
    rw [drain]
    exact ⟨hst, herr⟩
  | succ fuel ih =>
    intro i acc gst hw hst herr hincl hfs
    rw [drain]
    rcases hd : gst.includes.drop i with _ | ⟨⟨fname, ctx⟩, rest⟩
    · exact ⟨hst, herr⟩
    · dsimp only
      have hmem0 : (fname, ctx) ∈ gst.includes.drop i := by
        rw [hd]
        simp
      obtain ⟨n, hwfi⟩ := hincl (fname, ctx) hmem0
      rcases n with _ | m
      · rw [wf_include] at hwfi
        exact absurd hwfi (by simp)
      · obtain ⟨p, gst', prs, hrun, hst', herr', ⟨t, hinc, hmemt⟩, hall⟩ :=
          run_file_wf fs cd o fname ctx gst m hwfi
        have hproc : process_file fs cd o fname ctx gst =
            ({ file := fname, status := "ok", errors := [], parsed := p }, gst') := by
          rw [process_file, hrun]
        rw [hproc]
        dsimp only
        have hilt : i < gst.includes.length := by
          by_contra hx
          push_neg at hx
          rw [List.drop_eq_nil_iff.mpr hx] at hd
          exact absurd hd (by simp)
        have hw2 : g_wf root fs gst' := by
          have hre : GReach root fs gst (process_file fs cd o fname ctx gst).2 :=
            process_file_greach root fs cd o fname ctx gst
          rw [hproc] at hre
          exact greach_wf root fs gst gst' hw hre
        have hincl2 : ∀ pr ∈ gst'.includes.drop (i + 1),
            ∃ n', wf_include fs cd o n' pr.1 pr.2 = true := by
          intro pr hpr
          rw [hinc, List.drop_append_of_le_length (by omega)] at hpr
          rcases List.mem_append.mp hpr with hx | hx
          · have hdd : gst.includes.drop (i + 1) = rest := by
              have h1 : (gst.includes.drop i).tail = rest := by
                rw [hd]
                rfl
              rw [← List.tail_drop]
              exact h1
            rw [hdd] at hx
            refine hincl pr ?_
            rw [hd]
            exact List.mem_cons_of_mem _ hx
          · have hp2 := hmemt pr hx
            have hp3 := List.all_eq_true.mp hall pr hp2
            exact ⟨m, by simpa using hp3⟩
        exact ih (i + 1) _ gst' hw2 (by rw [hst', hst]) (by rw [herr', herr]) hincl2 (by omega)

/-- C1 (counterexample): the file `http;` has balanced braces (the
balancer raises nothing) and uses only the grammar directive `http`,
yet `parse` returns a failed payload with an error: the grammar check
also validates block shape, so a block directive without its opening
brace fails even though braces are balanced and every directive is
known. -/
theorem C1_counterexample :
    (balance_braces "/n.conf" (lex_file_object "http;\n")).2 = none ∧
    (DIRECTIVES.lookup "http").isSome = true ∧
    (parse [("/n.conf", "http;\n")] "/n.conf" {}).status = "failed" ∧
    (parse [("/n.conf", "http;\n")] "/n.conf" {}).errors.length = 1 :=
  ⟨by with_unfolding_all rfl, by with_unfolding_all rfl, by with_unfolding_all rfl,
   by with_unfolding_all rfl⟩

/-- C1 (amended): for a root configuration whose reachable include tree
is well formed — every file readable, braces balanced, and every
statement accepted by the grammar check in the context it is parsed in —
`parse` returns a payload with status `ok` and an empty error list. -/
theorem C1_amended_wf_ok (fs : FS) (filename : String) (o : Opts) (n : Nat)
    (h : wf_include fs (py_dirname filename) o n filename [] = true) :
    (parse fs filename o).status = "ok" ∧ (parse fs filename o).errors = [] := by
  have hincl0 : ∀ pr ∈ (gst_init filename).includes.drop 0,
      ∃ n', wf_include fs (py_dirname filename) o n' pr.1 pr.2 = true := by
    intro pr hpr
    simp only [gst_init, List.drop_zero, List.mem_singleton] at hpr
    subst hpr
    exact ⟨n, h⟩
  have hdr := drain_wf_clean fs filename (py_dirname filename) o (fs.length + 1) 0 []
    (gst_init filename) (gst_init_wf filename fs) rfl rfl hincl0 (by omega)
  have hps : (parse fs filename o).status =
      (drain fs (py_dirname filename) o (fs.length + 1) 0 []
        (gst_init filename)).2.p_status ∧
      (parse fs filename o).errors =
      (drain fs (py_dirname filename) o (fs.length + 1) 0 []
        (gst_init filename)).2.p_errors := by
    rcases hcb : o.combine with _ | _
    · constructor
      · simp only [parse, hcb]
        rfl
      · simp only [parse, hcb]
        rfl
    · constructor
      · simp only [parse, hcb]
        rfl
      · simp only [parse, hcb]
        rfl
  rw [hps.1, hps.2]
  exact hdr

/-- Witness for the amended C1: a two-file configuration (a root with
`events` and `http` blocks and an included server file) is well formed
at include depth 2, and `parse` returns status `ok` with no errors. -/
theorem C1_amended_wf_ok_witness :
    (parse [("/etc/nginx/nginx.conf",
        "events { worker_connections 1024; }\nhttp { include servers.conf; }\n"),
      ("/etc/nginx/servers.conf", "server { listen 80; }\n")]
      "/etc/nginx/nginx.conf" {}).status = "ok" ∧
    (parse [("/etc/nginx/nginx.conf",
        "events { worker_connections 1024; }\nhttp { include servers.conf; }\n"),
      ("/etc/nginx/servers.conf", "server { listen 80; }\n")]
      "/etc/nginx/nginx.conf" {}).errors = [] :=
  C1_amended_wf_ok _ "/etc/nginx/nginx.conf" {} 2 (by with_unfolding_all rfl)

end NginxConfig
